import Mathlib

/-!
# Verification of the `oslo/jwt` token codec

A shallow embedding of `src/jwt/jwt.ts` (`createJWT`, `parseJWT`,
`validateJWT`, `isValidAlgorithm`) together with the builder-style
`createJWT` of the earlier revision of the same file, and proofs of the
specified properties.

Modelling conventions:
* JavaScript/JSON values are modelled by the inductive `Json`.  JSON numbers
  are modelled as exact integers (the spec, section 3, declares the numeric
  claims to be integers; floating-point rounding of the host language is out
  of scope, and the JSON parser model truncates fractional literals).
* JS objects are association lists whose keys are unique (`Json.wf`);
  property assignment keeps the position of an existing key (`insertField`),
  as JS does.
* `Uint8Array`/byte strings are `List Nat` with entries `< 256`.
* `Date` values are integers counting milliseconds since the epoch;
  the ambient clock `Date.now()` is threaded as an explicit `now : Int`.
* The signing primitives behind `getAlgorithm(alg).sign/verify` are external
  collaborators (spec section 1) and are passed as explicit function
  arguments `sign`/`verify` taking the algorithm tag first.
* A JS function that can throw is modelled with an explicit error value
  (`ParseResult.exn`, `JWTError.exn`): `JSON.parse` and `base64url.decode`
  throw on invalid input and `parseJWT` does not catch.
-/

/-- The JSON value model (JS values reachable from `JSON.parse`). -/
inductive Json where
  | null : Json
  | bool (b : Bool) : Json
  | num (n : Int) : Json
  | str (s : String) : Json
  | arr (items : List Json) : Json
  | obj (fields : List (String × Json)) : Json
deriving Repr

/-- Association-list lookup used to model JS property access on an object. -/
def getField : List (String × Json) → String → Option Json
  | [], _ => none
  | (k, v) :: rest, key => if k = key then some v else getField rest key

/-- Value of an all-digit key (a JS array index), `none` otherwise. -/
def keyToNat (cs : List Char) : Option Nat :=
  if cs ≠ [] ∧ cs.all Char.isDigit then
    some (cs.foldl (fun acc c => acc * 10 + (c.toNat - 48)) 0)
  else none

/-- JS property access `j[key]` restricted to the keys `parseJWT` uses:
on an object it is association lookup; on an array only `"length"` and
numeric indices are present; other values have none of the queried keys. -/
def getPropJS : Json → String → Option Json
  | .obj fields, key => getField fields key
  | .arr items, key =>
      if key = "length" then some (.num items.length)
      else match keyToNat key.data with
        | some i => items.get? i
        | none => none
  | _, _ => none

/-- JS `key in j` for the values that reach the `in` checks of `parseJWT`. -/
def hasProp (j : Json) (key : String) : Bool :=
  (getPropJS j key).isSome

/-- JS `typeof` on JSON values (`typeof null` and `typeof []` are
`"object"`). -/
def jsTypeof : Json → String
  | .null => "object"
  | .bool _ => "boolean"
  | .num _ => "number"
  | .str _ => "string"
  | .arr _ => "object"
  | .obj _ => "object"

/-- The guard `typeof x === "object" && x !== null` used (negated) by
`parseJWT` on the decoded header and payload.  Note a JSON array passes. -/
def typeofObjectCheck (j : Json) : Bool :=
  jsTypeof j = "object" && !(match j with | .null => true | _ => false)

/-- The closed list of supported algorithm tags
(`isValidAlgorithm`, src/jwt/jwt.ts lines 239-255). -/
def jwtAlgorithmList : List String :=
  ["HS256", "HS384", "HS512", "RS256", "RS384", "RS512",
   "ES256", "ES384", "ES512", "PS256", "PS384", "PS512"]

/-- `isValidAlgorithm` from the source: a string member of the closed set of
12 tags (any non-string value fails the `typeof` test inside). -/
def isValidAlgorithm : Json → Bool
  | .str s => jwtAlgorithmList.contains s
  | _ => false

/-- The same membership test on a bare string tag. -/
def isValidAlgorithmStr (s : String) : Bool :=
  jwtAlgorithmList.contains s

/-- JS property assignment `o[k] = v` on an object modelled as a list:
an existing key keeps its position and gets the new value, a new key is
appended. -/
def insertField : List (String × Json) → String → Json → List (String × Json)
  | [], k, v => [(k, v)]
  | (k', v') :: rest, k, v =>
      if k' = k then (k, v) :: rest else (k', v') :: insertField rest k v

/-- Building a JS object from a list of assignments in order (object
literals with spreads are folds of property assignment). -/
def collapseFields (pairs : List (String × Json)) : List (String × Json) :=
  pairs.foldl (fun acc kv => insertField acc kv.1 kv.2) []

/-- Are the keys of an object pairwise distinct? -/
def nodupKeys (fields : List (String × Json)) : Bool :=
  decide (fields.map Prod.fst).Nodup

mutual

/-- Well-formedness of a `Json` value as the image of a JS value: every
object, recursively, has pairwise distinct keys (JS objects cannot carry a
key twice). -/
def Json.wf : Json → Bool
  | .null => true
  | .bool _ => true
  | .num _ => true
  | .str _ => true
  | .arr items => Json.wfList items
  | .obj fields => nodupKeys fields && Json.wfFields fields

/-- All members of a list are well-formed. -/
def Json.wfList : List Json → Bool
  | [] => true
  | j :: js => j.wf && Json.wfList js

/-- All values of an object are well-formed. -/
def Json.wfFields : List (String × Json) → Bool
  | [] => true
  | kv :: fs => kv.2.wf && Json.wfFields fs

end

/-! ## JSON serialization (model of the host `JSON.stringify`) -/

/-- Opening brace character (0x7b). -/
def lbrace : Char := Char.ofNat 123

/-- Closing brace character (0x7d). -/
def rbrace : Char := Char.ofNat 125

/-- Hexadecimal digit character for a value below 16 (lower case, as the
host serializer produces in `\u00xx` escapes). -/
def hexChar (n : Nat) : Char :=
  if n < 10 then Char.ofNat (48 + n) else Char.ofNat (87 + n)

/-- Little-endian decimal digits, with explicit fuel so that the kernel can
evaluate it. -/
def natDigitsAux : Nat → Nat → List Nat
  | 0, _ => []
  | fuel + 1, n => if n = 0 then [] else n % 10 :: natDigitsAux fuel (n / 10)

/-- Little-endian decimal digits of a natural number. -/
def natDigits (n : Nat) : List Nat := natDigitsAux (n + 1) n

/-- Decimal digits of a natural number, most significant first. -/
def natChars (n : Nat) : List Char :=
  if n = 0 then ['0']
  else (natDigits n).reverse.map (fun d => Char.ofNat (48 + d))

/-- Decimal representation of an integer. -/
def intChars (n : Int) : List Char :=
  if n < 0 then '-' :: natChars n.natAbs else natChars n.natAbs

/-- String-body escaping of `JSON.stringify`: quote and backslash get a
backslash, the named control escapes are used where they exist, the other
control characters become `\u00xx`. -/
def escChar (c : Char) : List Char :=
  if c = '"' then ['\\', '"']
  else if c = '\\' then ['\\', '\\']
  else if c = Char.ofNat 8 then ['\\', 'b']
  else if c = Char.ofNat 9 then ['\\', 't']
  else if c = Char.ofNat 10 then ['\\', 'n']
  else if c = Char.ofNat 12 then ['\\', 'f']
  else if c = Char.ofNat 13 then ['\\', 'r']
  else if c.toNat < 32 then
    ['\\', 'u', '0', '0', hexChar (c.toNat / 16), hexChar (c.toNat % 16)]
  else [c]

/-- Escape a whole string body. -/
def escChars (cs : List Char) : List Char := cs.flatMap escChar

mutual

/-- Model of `JSON.stringify` producing the serialized character list. -/
def stringifyVal : Json → List Char
  | .null => "null".data
  | .bool true => "true".data
  | .bool false => "false".data
  | .num n => intChars n
  | .str s => '"' :: (escChars s.data ++ ['"'])
  | .arr items => '[' :: (stringifyItems items ++ [']'])
  | .obj fields => lbrace :: (stringifyFields fields ++ [rbrace])

/-- Comma-separated serialization of array elements. -/
def stringifyItems : List Json → List Char
  | [] => []
  | [j] => stringifyVal j
  | j :: rest => stringifyVal j ++ ',' :: stringifyItems rest

/-- Comma-separated serialization of object members. -/
def stringifyFields : List (String × Json) → List Char
  | [] => []
  | [(k, v)] => '"' :: (escChars k.data ++ '"' :: ':' :: stringifyVal v)
  | (k, v) :: rest =>
      ('"' :: (escChars k.data ++ '"' :: ':' :: stringifyVal v)) ++
        ',' :: stringifyFields rest

end

/-! ## JSON parsing (model of the host `JSON.parse`) -/

/-- JSON whitespace. -/
def isWsChar (c : Char) : Bool :=
  c = ' ' || c = Char.ofNat 9 || c = Char.ofNat 10 || c = Char.ofNat 13

/-- Skip leading JSON whitespace. -/
def skipWs (cs : List Char) : List Char := cs.dropWhile isWsChar

/-- Decimal digit value of a character. -/
def dval (c : Char) : Option Nat :=
  if c.isDigit then some (c.toNat - 48) else none

/-- Hexadecimal digit value of a character (both cases accepted). -/
def hexVal (c : Char) : Option Nat :=
  if 48 ≤ c.toNat ∧ c.toNat ≤ 57 then some (c.toNat - 48)
  else if 97 ≤ c.toNat ∧ c.toNat ≤ 102 then some (c.toNat - 87)
  else if 65 ≤ c.toNat ∧ c.toNat ≤ 70 then some (c.toNat - 55)
  else none

/-- The single-character string escapes of JSON. -/
def escDecode (e : Char) : Option Char :=
  if e = '"' then some '"'
  else if e = '\\' then some '\\'
  else if e = '/' then some '/'
  else if e = 'b' then some (Char.ofNat 8)
  else if e = 'f' then some (Char.ofNat 12)
  else if e = 'n' then some (Char.ofNat 10)
  else if e = 'r' then some (Char.ofNat 13)
  else if e = 't' then some (Char.ofNat 9)
  else none

/-- Parse the body of a JSON string after the opening quote, returning the
decoded characters and the input after the closing quote.  A `\uXXXX`
escape denoting a surrogate half is decoded as U+FFFD (the model does not
combine surrogate pairs; acceptance agrees with the host parser). -/
def parseStringBody : List Char → Option (List Char × List Char)
  | [] => none
  | '"' :: rest => some ([], rest)
  | '\\' :: rest =>
    match rest with
    | 'u' :: h1 :: h2 :: h3 :: h4 :: rest2 =>
      match hexVal h1, hexVal h2, hexVal h3, hexVal h4 with
      | some a, some b, some c, some d =>
          let n := ((a * 16 + b) * 16 + c) * 16 + d
          let ch := if n < 55296 then Char.ofNat n else
            if 57343 < n then Char.ofNat n else Char.ofNat 65533
          (parseStringBody rest2).map (fun p => (ch :: p.1, p.2))
      | _, _, _, _ => none
    | e :: rest2 =>
      match escDecode e with
      | some ch => (parseStringBody rest2).map (fun p => (ch :: p.1, p.2))
      | none => none
    | [] => none
  | c :: rest => (parseStringBody rest).map (fun p => (c :: p.1, p.2))

/-- Greedily read decimal digits, returning their values and the rest. -/
def parseDigitsList : List Char → List Nat × List Char
  | [] => ([], [])
  | c :: rest =>
    match dval c with
    | some d => let p := parseDigitsList rest; (d :: p.1, p.2)
    | none => ([], c :: rest)

/-- Value of a most-significant-first digit list. -/
def digitsVal (ds : List Nat) : Nat := ds.foldl (fun acc d => acc * 10 + d) 0

/-- Optional leading minus sign of a JSON number. -/
def parseSign (cs : List Char) : Bool × List Char :=
  match cs with
  | '-' :: rest => (true, rest)
  | _ => (false, cs)

/-- Optional fraction part (dot and digits); the digits are returned for
scaling. -/
def parseFracPart (cs : List Char) : List Nat × List Char :=
  match cs with
  | '.' :: r => parseDigitsList r
  | _ => ([], cs)

/-- Optional exponent part; `none` when an exponent marker is not followed
by a digit. -/
def parseExpPart (cs : List Char) : Option (Int × List Char) :=
  match cs with
  | e :: r =>
    if e = 'e' ∨ e = 'E' then
      let esign : Bool × List Char :=
        match r with
        | '-' :: r2 => (true, r2)
        | '+' :: r2 => (false, r2)
        | _ => (false, r)
      let pe := parseDigitsList esign.2
      if pe.1.isEmpty then none
      else some ((if esign.1 then -(Int.ofNat (digitsVal pe.1))
                  else Int.ofNat (digitsVal pe.1)), pe.2)
    else some (0, cs)
  | [] => some (0, [])

/-- Parse a JSON number.  The syntax accepted is that of JSON
(`-?digits(.digits)?([eE][+-]?digits)?`, slightly lenient about leading
zeros); the value is the exact integer when the literal denotes one, and
is truncated otherwise (the model works with exact integers). -/
def parseNumber (cs : List Char) : Option (Int × List Char) :=
  let sign := parseSign cs
  let p1 := parseDigitsList sign.2
  if p1.1.isEmpty then none else
  let frac := parseFracPart p1.2
  let mantissa : Int := Int.ofNat (digitsVal (p1.1 ++ frac.1))
  let mantissa := if sign.1 then -mantissa else mantissa
  match parseExpPart frac.2 with
  | none => none
  | some (ex, rest) =>
    let scale : Int := ex - Int.ofNat frac.1.length
    let value : Int :=
      if 0 ≤ scale then mantissa * (10 : Int) ^ scale.toNat
      else mantissa / (10 : Int) ^ (-scale).toNat
    some (value, rest)

mutual

/-- Model of `JSON.parse`: parse one JSON value, with fuel bounding the
recursion depth. -/
def parseValue : Nat → List Char → Option (Json × List Char)
  | 0, _ => none
  | fuel + 1, cs =>
    match skipWs cs with
    | '"' :: rest =>
        (parseStringBody rest).map (fun p => (Json.str (String.mk p.1), p.2))
    | 't' :: 'r' :: 'u' :: 'e' :: rest => some (.bool true, rest)
    | 'f' :: 'a' :: 'l' :: 's' :: 'e' :: rest => some (.bool false, rest)
    | 'n' :: 'u' :: 'l' :: 'l' :: rest => some (.null, rest)
    | '[' :: rest =>
        (match skipWs rest with
         | ']' :: rest2 => some (.arr [], rest2)
         | _ => (parseItems fuel rest).map (fun p => (Json.arr p.1, p.2)))
    | c :: rest =>
        if c = lbrace then
          match skipWs rest with
          | c2 :: rest2 =>
            if c2 = rbrace then some (.obj [], rest2)
            else (parseFields fuel rest).map
              (fun p => (Json.obj (collapseFields p.1), p.2))
          | [] => none
        else if c = '-' ∨ c.isDigit then
          (parseNumber (c :: rest)).map (fun p => (Json.num p.1, p.2))
        else none
    | [] => none

/-- Parse the elements of a non-empty JSON array after the opening
bracket. -/
def parseItems : Nat → List Char → Option (List Json × List Char)
  | 0, _ => none
  | fuel + 1, cs =>
    match parseValue fuel cs with
    | none => none
    | some (v, rest) =>
      match skipWs rest with
      | ',' :: rest2 => (parseItems fuel rest2).map (fun p => (v :: p.1, p.2))
      | ']' :: rest2 => some ([v], rest2)
      | _ => none

/-- Parse the members of a non-empty JSON object after the opening brace,
returning the raw key/value pairs in source order. -/
def parseFields : Nat → List Char → Option (List (String × Json) × List Char)
  | 0, _ => none
  | fuel + 1, cs =>
    match skipWs cs with
    | '"' :: rest =>
      match parseStringBody rest with
      | none => none
      | some (key, rest2) =>
        match skipWs rest2 with
        | ':' :: rest3 =>
          match parseValue fuel rest3 with
          | none => none
          | some (v, rest4) =>
            match skipWs rest4 with
            | ',' :: rest5 => (parseFields fuel rest5).map
                (fun p => ((String.mk key, v) :: p.1, p.2))
            | c :: rest5 =>
                if c = rbrace then some ([(String.mk key, v)], rest5) else none
            | [] => none
        | _ => none
    | _ => none

end

/-- `JSON.parse` on a character list: one value, with only whitespace
allowed after it.  On any input the host parser rejects with a thrown
`SyntaxError`, this model returns `none`. -/
def Json.parseChars (cs : List Char) : Option Json :=
  match parseValue (2 * cs.length + 2) cs with
  | some (j, rest) => if skipWs rest = [] then some j else none
  | none => none

/-- `JSON.parse` on a string. -/
def Json.parse (s : String) : Option Json := Json.parseChars s.data

/-! ## UTF-8 (model of `TextEncoder` / `TextDecoder`) -/

/-- UTF-8 encoding of one Unicode scalar value. -/
def utf8EncodeChar (c : Char) : List Nat :=
  let n := c.toNat
  if n < 128 then [n]
  else if n < 2048 then [192 + n / 64, 128 + n % 64]
  else if n < 65536 then
    [224 + n / 4096, 128 + (n / 64) % 64, 128 + n % 64]
  else
    [240 + n / 262144, 128 + (n / 4096) % 64, 128 + (n / 64) % 64,
     128 + n % 64]

/-- `TextEncoder.encode`: UTF-8 bytes of a character list. -/
def utf8EncodeChars (cs : List Char) : List Nat := cs.flatMap utf8EncodeChar

/-- A scalar value that is valid for `Char`, else U+FFFD. -/
def charOfScalar (n : Nat) : Char :=
  if n < 55296 then Char.ofNat n
  else if 57343 < n ∧ n < 1114112 then Char.ofNat n
  else Char.ofNat 65533

/-- Is a byte a UTF-8 continuation byte? -/
def isCont (b : Nat) : Bool := 128 ≤ b ∧ b < 192

/-- One step of UTF-8 decoding: decode the character starting at byte `b`
(with `rest` following), returning it and the remaining input.  Malformed
sequences yield U+FFFD. -/
def utf8DecodeStep (b : Nat) (rest : List Nat) : Char × List Nat :=
  if b < 128 then (Char.ofNat b, rest)
  else if b < 192 then (Char.ofNat 65533, rest)
  else if b < 224 then
    match rest with
    | b2 :: rest2 =>
      if isCont b2 then (charOfScalar ((b - 192) * 64 + (b2 - 128)), rest2)
      else (Char.ofNat 65533, rest)
    | [] => (Char.ofNat 65533, [])
  else if b < 240 then
    match rest with
    | b2 :: b3 :: rest3 =>
      if isCont b2 && isCont b3 then
        (charOfScalar (((b - 224) * 64 + (b2 - 128)) * 64 + (b3 - 128)),
          rest3)
      else (Char.ofNat 65533, rest)
    | _ => (Char.ofNat 65533, [])
  else if b < 248 then
    match rest with
    | b2 :: b3 :: b4 :: rest4 =>
      if isCont b2 && isCont b3 && isCont b4 then
        (charOfScalar
          ((((b - 240) * 64 + (b2 - 128)) * 64 + (b3 - 128)) * 64 +
            (b4 - 128)), rest4)
      else (Char.ofNat 65533, rest)
    | _ => (Char.ofNat 65533, [])
  else (Char.ofNat 65533, rest)

theorem utf8DecodeStep_length (b : Nat) (rest : List Nat) :
    (utf8DecodeStep b rest).2.length ≤ rest.length := by
  simp only [utf8DecodeStep]
  repeat' split
  all_goals simp_all
  all_goals omega

/-- Fuel-driven UTF-8 decoding loop; the fuel only needs to dominate the
number of decoded characters, which never exceeds the byte count. -/
def utf8DecodeAux : Nat → List Nat → List Char
  | 0, _ => []
  | _ + 1, [] => []
  | fuel + 1, b :: rest =>
    (utf8DecodeStep b rest).1 :: utf8DecodeAux fuel (utf8DecodeStep b rest).2

/-- `TextDecoder.decode` (default, non-fatal, mode): total UTF-8 decoding,
malformed sequences yielding U+FFFD replacement characters.  The decoder is
lenient (it does not reject overlong forms); `parseJWT` only ever feeds it
to `JSON.parse`, and on the encoding side only valid sequences arise. -/
def utf8Decode (bs : List Nat) : List Char :=
  utf8DecodeAux (bs.length + 1) bs

/-! ## base64url (the `oslo/encoding` collaborator)

Modelled from the spec: the `base64url` codec of `oslo/encoding` is not part
of the analysed sources; the spec (sections 4.2 and 6) fixes its contract:
`encode(bytes, includePadding: false)` produces unpadded base64url text, and
`decode(text, strict: false)` decodes with padding optional, rejecting (by
throwing) on characters outside the base64url alphabet. -/

/-- The base64url alphabet. -/
def b64Alphabet : List Char :=
  "ABCDEFGHIJKLMNOPQRSTUVWXYZabcdefghijklmnopqrstuvwxyz0123456789-_".data

/-- Character of a 6-bit value. -/
def b64Char (v : Nat) : Char := b64Alphabet.getD v '?'

/-- 6-bit value of an alphabet character, `none` outside the alphabet. -/
def b64Val (c : Char) : Option Nat :=
  b64Alphabet.indexOf? c

/-- Modelled from the spec: unpadded base64url encoding of a byte list. -/
def b64urlEncode : List Nat → List Char
  | a :: b :: c :: rest =>
      b64Char (a / 4) :: b64Char ((a % 4) * 16 + b / 16) ::
        b64Char ((b % 16) * 4 + c / 64) :: b64Char (c % 64) ::
          b64urlEncode rest
  | [a, b] =>
      [b64Char (a / 4), b64Char ((a % 4) * 16 + b / 16),
       b64Char ((b % 16) * 4)]
  | [a] => [b64Char (a / 4), b64Char ((a % 4) * 16)]
  | [] => []

/-- Decode base64url characters (padding already removed), failing on any
character outside the alphabet or on a leftover single character. -/
def b64urlDecodeCore : List Char → Option (List Nat)
  | c1 :: c2 :: c3 :: c4 :: rest =>
    match b64Val c1, b64Val c2, b64Val c3, b64Val c4 with
    | some v1, some v2, some v3, some v4 =>
        (b64urlDecodeCore rest).map
          (fun bs => (v1 * 4 + v2 / 16) :: ((v2 % 16) * 16 + v3 / 4) ::
            ((v3 % 4) * 64 + v4) :: bs)
    | _, _, _, _ => none
  | [c1, c2, c3] =>
    match b64Val c1, b64Val c2, b64Val c3 with
    | some v1, some v2, some v3 =>
        some [v1 * 4 + v2 / 16, (v2 % 16) * 16 + v3 / 4]
    | _, _, _ => none
  | [c1, c2] =>
    match b64Val c1, b64Val c2 with
    | some v1, some v2 => some [v1 * 4 + v2 / 16]
    | _, _ => none
  | [_] => none
  | [] => some []

/-- Modelled from the spec: `base64url.decode(text, strict: false)` —
padding characters are ignored, characters outside the alphabet make the
decoder throw (modelled as `none`). -/
def b64urlDecode (cs : List Char) : Option (List Nat) :=
  b64urlDecodeCore (cs.filter (fun c => c ≠ '='))

/-! ## Splitting a token at the dots (`token.split(".")`) -/

/-- JS `token.split(".")`: the list of dot-free runs, keeping empty runs. -/
def splitDots : List Char → List (List Char)
  | [] => [[]]
  | c :: rest =>
    match splitDots rest with
    | [] => [[c]]
    | seg :: segs =>
      if c = '.' then [] :: seg :: segs else (c :: seg) :: segs

/-- Rejoin dot-separated segments (used to state that parsing preserves the
input). -/
def joinDots : List (List Char) → List Char
  | [] => []
  | [seg] => seg
  | seg :: segs => seg ++ '.' :: joinDots segs

/-! ## The JWT data model (src/jwt/jwt.ts, interface `JWT`) -/

/-- The parsed-token structure returned by `parseJWT` / `validateJWT`.
`Date` fields hold milliseconds since the epoch. -/
structure JWT where
  value : String
  header : Json
  payload : Json
  parts : List Char × List Char × List Char
  algorithm : String
  expiresAt : Option Int
  issuer : Option String
  subject : Option String
  audiences : Option (List String)
  notBefore : Option Int
  issuedAt : Option Int
  jwtId : Option String

/-- Outcome of the JS `parseJWT`: a token, the `null` return, or an
exception escaping (`JSON.parse` / `base64url.decode` throw and `parseJWT`
does not catch). -/
inductive ParseResult where
  | ok (jwt : JWT) : ParseResult
  | nul : ParseResult
  | exn : ParseResult

/-- One numeric-claim block of `parseJWT` (`exp`, `nbf`, `iat`): absent is
fine, a non-number returns `null` (modelled `none`), a number is stored as
`new Date(n * 1000)`, i.e. `n * 1000` milliseconds. -/
def readNumDate (payload : Json) (key : String) : Option (Option Int) :=
  if hasProp payload key then
    match getPropJS payload key with
    | some (.num n) => some (some (n * 1000))
    | _ => none
  else some none

/-- One string-claim block of `parseJWT` (`iss`, `sub`, `jti`). -/
def readStr (payload : Json) (key : String) : Option (Option String) :=
  if hasProp payload key then
    match getPropJS payload key with
    | some (.str s) => some (some s)
    | _ => none
  else some none

/-- Extract the strings of a JSON array, failing on a non-string element
(the `for (const item of payload.aud)` loop). -/
def asStringList (items : List Json) : Option (List String) :=
  items.mapM (fun j => match j with | .str s => some s | _ => none)

/-- The `aud` block of `parseJWT`: a bare string is wrapped in a singleton
array, an array must contain only strings, anything else returns `null`. -/
def readAud (payload : Json) : Option (Option (List String)) :=
  if hasProp payload "aud" then
    match getPropJS payload "aud" with
    | some (.arr items) => (asStringList items).map some
    | some (.str s) => some (some [s])
    | _ => none
  else some none

/-- The header `typ` rejection test of `parseJWT`
(`"typ" in header && header.typ !== "JWT"`): present and anything but the
exact string `"JWT"`. -/
def typCheckFails (h : Json) : Bool :=
  hasProp h "typ" &&
    !(match getPropJS h "typ" with
      | some (.str s) => s = "JWT"
      | _ => false)

/-- `parseJWT` (src/jwt/jwt.ts lines 114-210): split at the dots, base64url
decode the first two segments, `JSON.parse` each, run the header checks
(`typeof`, `alg`, `typ`) and payload checks (`typeof`, per-claim types),
and assemble the `JWT` structure. -/
def parseJWT (token : String) : ParseResult :=
  match splitDots token.data with
  | [p0, p1, p2] =>
    match b64urlDecode p0 with
    | none => .exn
    | some rawHeader =>
      match b64urlDecode p1 with
      | none => .exn
      | some rawPayload =>
        match Json.parseChars (utf8Decode rawHeader) with
        | none => .exn
        | some header =>
          if !typeofObjectCheck header then .nul
          else
            match getPropJS header "alg" with
            | some (.str algStr) =>
              if !isValidAlgorithmStr algStr then .nul
              else if typCheckFails header then .nul
              else
                match Json.parseChars (utf8Decode rawPayload) with
                | none => .exn
                | some payload =>
                  if !typeofObjectCheck payload then .nul
                  else
                    match readNumDate payload "exp", readStr payload "iss",
                        readStr payload "sub", readAud payload,
                        readNumDate payload "nbf", readNumDate payload "iat",
                        readStr payload "jti" with
                    | some expv, some issv, some subv, some audv, some nbfv,
                        some iatv, some jtiv =>
                        .ok { value := token, header := header,
                              payload := payload, parts := (p0, p1, p2),
                              algorithm := algStr, expiresAt := expv,
                              issuer := issv, subject := subv,
                              audiences := audv, notBefore := nbfv,
                              issuedAt := iatv, jwtId := jtiv }
                    | _, _, _, _, _, _, _ => .nul
            | some _ => .nul
            | none => .nul
  | _ => .nul

/-- The validation errors of `validateJWT` (distinct thrown `Error`s in the
source), plus the propagated-exception outcome. -/
inductive JWTError where
  | invalidJWT : JWTError
  | invalidAlgorithm : JWTError
  | expiredJWT : JWTError
  | inactiveJWT : JWTError
  | invalidSignature : JWTError
  | exn : JWTError
deriving DecidableEq

/-- Modelled from the spec: `isWithinExpirationDate` of `oslo` (src/index.ts
is not among the analysed sources); per spec section 4.6 an `exp` time must
be in the future relative to the current time, i.e. `Date.now() <
date.getTime()`. -/
def isWithinExpirationDate (now : Int) (date : Int) : Bool :=
  now < date

/-- `validateJWT` (src/jwt/jwt.ts lines 85-112).  `verify` is the external
signing primitive dispatched by `getAlgorithm` (tag first); `now` is the
ambient clock. -/
def validateJWT {K : Type} (verify : String → K → List Nat → List Nat → Bool)
    (now : Int) (algorithm : String) (key : K) (jwt : String) :
    Except JWTError JWT :=
  match parseJWT jwt with
  | .nul => .error .invalidJWT
  | .exn => .error .exn
  | .ok parsed =>
    if parsed.algorithm ≠ algorithm then .error .invalidAlgorithm
    else if (match parsed.expiresAt with
             | some t => !isWithinExpirationDate now t
             | none => false) then .error .expiredJWT
    else if (match parsed.notBefore with
             | some t => decide (now < t)
             | none => false) then .error .inactiveJWT
    else
      match b64urlDecode parsed.parts.2.2 with
      | none => .error .exn
      | some signature =>
        let data := utf8EncodeChars (parsed.parts.1 ++ '.' :: parsed.parts.2.1)
        if verify parsed.algorithm key signature data then .ok parsed
        else .error .invalidSignature

/-- `createJWT` (src/jwt/jwt.ts lines 64-83): serialize and base64url-encode
header and payload, sign `headerPart.payloadPart` with the primitive for
`header.alg` (`getAlgorithm` throws on an invalid tag, modelled `none`), and
join the three parts.  `sign` is the external signing primitive. -/
def createJWT {K : Type} (sign : String → K → List Nat → List Nat)
    (key : K) (header : Json) (payload : Json) : Option String :=
  let headerPart := b64urlEncode (utf8EncodeChars (stringifyVal header))
  let payloadPart := b64urlEncode (utf8EncodeChars (stringifyVal payload))
  let data := utf8EncodeChars (headerPart ++ '.' :: payloadPart)
  match getPropJS header "alg" with
  | some (.str a) =>
    if isValidAlgorithmStr a then
      some (String.mk (headerPart ++ '.' :: payloadPart ++ '.' ::
        b64urlEncode (sign a key data)))
    else none
  | _ => none

/-- The options record of the builder-style `createJWT` of the earlier
revision (src/unnamed/part_003 lines 21-79). -/
structure JWTCreateOptions where
  headers : Option (List (String × Json)) := none
  expiresInSeconds : Option Int := none
  issuer : Option String := none
  subject : Option String := none
  audiences : Option (List String) := none
  notBeforeMs : Option Int := none
  includeIssuedTimestamp : Bool := false
  jwtId : Option String := none

/-- Conditionally set one payload claim from an option. -/
def addOpt (fs : List (String × Json)) (k : String) (ov : Option Json) :
    List (String × Json) :=
  match ov with
  | none => fs
  | some v => insertField fs k v

/-- The header object literal of the builder-style `createJWT`:
`{alg: algorithm, typ: "JWT", ...options?.headers}` — a spread assigns each
custom header in order, so a custom `alg` or `typ` overrides the injected
value. -/
def builderHeaderFields (algorithm : String)
    (headers : Option (List (String × Json))) : List (String × Json) :=
  let base :=
    insertField (insertField [] "alg" (.str algorithm)) "typ" (.str "JWT")
  match headers with
  | none => base
  | some hs => hs.foldl (fun acc kv => insertField acc kv.1 kv.2) base

/-- The payload object of the builder-style `createJWT`: the spread custom
claims, then the option-derived registered claims in source order. -/
def builderPayloadFields (nowMs : Int)
    (payloadClaims : List (String × Json)) (o : JWTCreateOptions) :
    List (String × Json) :=
  let fs := collapseFields payloadClaims
  let fs := addOpt fs "aud" (o.audiences.map (fun l => Json.arr (l.map Json.str)))
  let fs := addOpt fs "sub" (o.subject.map Json.str)
  let fs := addOpt fs "iss" (o.issuer.map Json.str)
  let fs := addOpt fs "jti" (o.jwtId.map Json.str)
  let fs := addOpt fs "exp"
    (o.expiresInSeconds.map (fun s => Json.num (Int.fdiv nowMs 1000 + s)))
  let fs := addOpt fs "nbf"
    (o.notBeforeMs.map (fun t => Json.num (Int.fdiv t 1000)))
  if o.includeIssuedTimestamp
    then insertField fs "iat" (.num (Int.fdiv nowMs 1000)) else fs

/-- The builder-style `createJWT(algorithm, key, payloadClaims, options)`
of the earlier revision (src/unnamed/part_003 lines 21-79): assemble header
and payload objects, serialize and encode them, and sign
`headerPart.payloadPart` with the primitive for the explicit `algorithm`
argument. -/
def createJWTBuilder {K : Type} (sign : String → K → List Nat → List Nat)
    (nowMs : Int) (algorithm : String) (key : K)
    (payloadClaims : List (String × Json)) (options : Option JWTCreateOptions) :
    Option String :=
  let o := options.getD {}
  let header := Json.obj (builderHeaderFields algorithm o.headers)
  let payload := Json.obj (builderPayloadFields nowMs payloadClaims o)
  let headerPart := b64urlEncode (utf8EncodeChars (stringifyVal header))
  let payloadPart := b64urlEncode (utf8EncodeChars (stringifyVal payload))
  let data := utf8EncodeChars (headerPart ++ '.' :: payloadPart)
  if isValidAlgorithmStr algorithm then
    some (String.mk (headerPart ++ '.' :: payloadPart ++ '.' ::
      b64urlEncode (sign algorithm key data)))
  else none

/-! ## Projections used to state the claims -/

/-- The base64url-decoded text of a wire segment (`none` when the decoder
throws). -/
def decodeSegmentText (cs : List Char) : Option (List Char) :=
  (b64urlDecode cs).map utf8Decode

/-- The JSON value a wire segment decodes to (`none` when either the
base64url decoder or the JSON parser rejects). -/
def decodeSegment (cs : List Char) : Option Json :=
  (decodeSegmentText cs).bind Json.parseChars

/-- The algorithm tag of a successfully parsed token. -/
def parsedAlg (tok : String) : Option String :=
  match parseJWT tok with
  | .ok p => some p.algorithm
  | _ => none

/-- The `expiresAt` field of a successfully parsed token. -/
def parsedExpiresAt (tok : String) : Option (Option Int) :=
  match parseJWT tok with
  | .ok p => some p.expiresAt
  | _ => none

/-- The `audiences` field of a successfully parsed token. -/
def parsedAudiences (tok : String) : Option (Option (List String)) :=
  match parseJWT tok with
  | .ok p => some p.audiences
  | _ => none

/-- Did `parseJWT` succeed? -/
def parseOk (tok : String) : Bool :=
  match parseJWT tok with
  | .ok _ => true
  | _ => false

/-! ## Lemmas: splitting at dots -/

theorem splitDots_ne_nil (cs : List Char) : splitDots cs ≠ [] := by
  cases cs with
  | nil => simp [splitDots]
  | cons c rest =>
    simp only [splitDots]
    cases h : splitDots rest with
    | nil => simp
    | cons seg segs =>
      by_cases hc : c = '.' <;> simp [hc]

theorem joinDots_splitDots (cs : List Char) : joinDots (splitDots cs) = cs := by
  induction cs with
  | nil => simp [splitDots, joinDots]
  | cons c rest ih =>
    simp only [splitDots]
    cases h : splitDots rest with
    | nil => exact absurd h (splitDots_ne_nil rest)
    | cons seg segs =>
      rw [h] at ih
      by_cases hc : c = '.'
      · subst hc
        simp only [if_pos rfl, joinDots]
        cases segs with
        | nil => simp [joinDots] at ih ⊢; exact ih
        | cons s2 ss => simpa [joinDots] using ih
      · simp only [if_neg hc]
        cases segs with
        | nil => simp [joinDots] at ih ⊢; exact ih
        | cons s2 ss => simpa [joinDots] using ih

theorem splitDots_append_noDot (xs ys : List Char)
    (hx : ∀ c ∈ xs, c ≠ '.') :
    splitDots (xs ++ '.' :: ys) = xs :: splitDots ys := by
  induction xs with
  | nil =>
    simp only [List.nil_append, splitDots]
    cases h : splitDots ys with
    | nil => exact absurd h (splitDots_ne_nil ys)
    | cons seg segs => simp
  | cons x xs ih =>
    have hx' : ∀ c ∈ xs, c ≠ '.' := fun c hc => hx c (List.mem_cons_of_mem _ hc)
    have hxd : x ≠ '.' := hx x (List.mem_cons_self _ _)
    simp only [List.cons_append, splitDots]
    rw [show xs.append ('.' :: ys) = xs ++ '.' :: ys from rfl, ih hx']
    simp [hxd]

theorem splitDots_noDot (xs : List Char) (hx : ∀ c ∈ xs, c ≠ '.') :
    splitDots xs = [xs] := by
  induction xs with
  | nil => simp [splitDots]
  | cons x xs ih =>
    have hx' : ∀ c ∈ xs, c ≠ '.' := fun c hc => hx c (List.mem_cons_of_mem _ hc)
    have hxd : x ≠ '.' := hx x (List.mem_cons_self _ _)
    simp [splitDots, ih hx', hxd]

/-! ## Lemmas: base64url -/

theorem b64Val_b64Char : ∀ v < 64, b64Val (b64Char v) = some v := by decide

theorem b64Char_ne : ∀ v < 64, b64Char v ≠ '=' ∧ b64Char v ≠ '.' := by decide

theorem mem_b64urlEncode (bs : List Nat) (c : Char)
    (hb : ∀ b ∈ bs, b < 256)
    (hc : c ∈ b64urlEncode bs) : ∃ v, v < 64 ∧ c = b64Char v := by
  induction bs using b64urlEncode.induct with
  | case1 a b d rest ih =>
    have ha : a < 256 := hb a (by simp)
    have hbb : b < 256 := hb b (by simp)
    have hd : d < 256 := hb d (by simp)
    simp only [b64urlEncode, List.mem_cons] at hc
    rcases hc with h | h | h | h | h
    · exact ⟨a / 4, by omega, h⟩
    · exact ⟨(a % 4) * 16 + b / 16, by omega, h⟩
    · exact ⟨(b % 16) * 4 + d / 64, by omega, h⟩
    · exact ⟨d % 64, by omega, h⟩
    · exact ih (fun x hx => hb x (by simp [hx])) h
  | case2 a b =>
    have ha : a < 256 := hb a (by simp)
    have hbb : b < 256 := hb b (by simp)
    simp only [b64urlEncode, List.mem_cons] at hc
    rcases hc with h | h | h | h
    · exact ⟨a / 4, by omega, h⟩
    · exact ⟨(a % 4) * 16 + b / 16, by omega, h⟩
    · exact ⟨(b % 16) * 4, by omega, h⟩
    · simp at h
  | case3 a =>
    have ha : a < 256 := hb a (by simp)
    simp only [b64urlEncode, List.mem_cons] at hc
    rcases hc with h | h | h
    · exact ⟨a / 4, by omega, h⟩
    · exact ⟨(a % 4) * 16, by omega, h⟩
    · simp at h
  | case4 => simp [b64urlEncode] at hc

theorem b64urlDecodeCore_encode (bs : List Nat) (hb : ∀ b ∈ bs, b < 256) :
    b64urlDecodeCore (b64urlEncode bs) = some bs := by
  induction bs using b64urlEncode.induct with
  | case1 a b d rest ih =>
    have ha : a < 256 := hb a (by simp)
    have hbb : b < 256 := hb b (by simp)
    have hd : d < 256 := hb d (by simp)
    have ih' := ih (fun x hx => hb x (by simp [hx]))
    simp only [b64urlEncode, b64urlDecodeCore,
      b64Val_b64Char _ (show a / 4 < 64 by omega),
      b64Val_b64Char _ (show (a % 4) * 16 + b / 16 < 64 by omega),
      b64Val_b64Char _ (show (b % 16) * 4 + d / 64 < 64 by omega),
      b64Val_b64Char _ (show d % 64 < 64 by omega), ih', Option.map_some']
    refine congrArg some ?_
    have e1 : (a / 4) * 4 + ((a % 4) * 16 + b / 16) / 16 = a := by omega
    have e2 : (((a % 4) * 16 + b / 16) % 16) * 16 +
        ((b % 16) * 4 + d / 64) / 4 = b := by omega
    have e3 : (((b % 16) * 4 + d / 64) % 4) * 64 + d % 64 = d := by omega
    rw [e1, e2, e3]
  | case2 a b =>
    have ha : a < 256 := hb a (by simp)
    have hbb : b < 256 := hb b (by simp)
    simp only [b64urlEncode, b64urlDecodeCore,
      b64Val_b64Char _ (show a / 4 < 64 by omega),
      b64Val_b64Char _ (show (a % 4) * 16 + b / 16 < 64 by omega),
      b64Val_b64Char _ (show (b % 16) * 4 < 64 by omega)]
    refine congrArg some ?_
    have e1 : (a / 4) * 4 + ((a % 4) * 16 + b / 16) / 16 = a := by omega
    have e2 : (((a % 4) * 16 + b / 16) % 16) * 16 + ((b % 16) * 4) / 4 = b := by
      omega
    rw [e1, e2]
  | case3 a =>
    have ha : a < 256 := hb a (by simp)
    simp only [b64urlEncode, b64urlDecodeCore,
      b64Val_b64Char _ (show a / 4 < 64 by omega),
      b64Val_b64Char _ (show (a % 4) * 16 < 64 by omega)]
    refine congrArg some ?_
    have e1 : (a / 4) * 4 + ((a % 4) * 16) / 16 = a := by omega
    rw [e1]
  | case4 => rfl

theorem b64urlEncode_filter_eq (bs : List Nat) (hb : ∀ b ∈ bs, b < 256) :
    (b64urlEncode bs).filter (fun c => c ≠ '=') = b64urlEncode bs := by
  rw [List.filter_eq_self]
  intro c hc
  obtain ⟨v, hv, rfl⟩ := mem_b64urlEncode bs c hb hc
  simpa using (b64Char_ne v hv).1

theorem b64urlDecode_encode (bs : List Nat) (hb : ∀ b ∈ bs, b < 256) :
    b64urlDecode (b64urlEncode bs) = some bs := by
  rw [b64urlDecode, b64urlEncode_filter_eq bs hb, b64urlDecodeCore_encode bs hb]

theorem b64urlEncode_noDot (bs : List Nat) (hb : ∀ b ∈ bs, b < 256) :
    ∀ c ∈ b64urlEncode bs, c ≠ '.' := by
  intro c hc
  obtain ⟨v, hv, rfl⟩ := mem_b64urlEncode bs c hb hc
  exact (b64Char_ne v hv).2

/-! ## Lemmas: UTF-8 -/

theorem char_toNat_valid (c : Char) :
    c.toNat < 55296 ∨ (57343 < c.toNat ∧ c.toNat < 1114112) := c.valid

theorem utf8EncodeChar_lt (c : Char) : ∀ b ∈ utf8EncodeChar c, b < 256 := by
  have hv := char_toNat_valid c
  intro b hb
  simp only [utf8EncodeChar] at hb
  split at hb <;> rename_i h1
  · simp at hb; omega
  · split at hb <;> rename_i h2
    · simp at hb; rcases hb with hb | hb <;> omega
    · split at hb <;> rename_i h3
      · simp at hb; rcases hb with hb | hb | hb <;> omega
      · simp at hb
        rcases hb with hb | hb | hb | hb <;> omega

theorem utf8EncodeChars_lt (cs : List Char) :
    ∀ b ∈ utf8EncodeChars cs, b < 256 := by
  intro b hb
  simp only [utf8EncodeChars, List.mem_flatMap] at hb
  obtain ⟨c, _, hc⟩ := hb
  exact utf8EncodeChar_lt c b hc

theorem charOfScalar_toNat (c : Char) : charOfScalar c.toNat = c := by
  have hv := char_toNat_valid c
  simp only [charOfScalar]
  rcases hv with h | ⟨ha, hb⟩
  · rw [if_pos h, Char.ofNat_toNat]
  · rw [if_neg (by omega), if_pos (by omega), Char.ofNat_toNat]

theorem utf8DecodeStep_encodeChar (c : Char) (rest : List Nat)
    (b : Nat) (bs : List Nat) (h : utf8EncodeChar c = b :: bs) :
    utf8DecodeStep b (bs ++ rest) = (c, rest) := by
  have hv := char_toNat_valid c
  have hn : c.toNat < 1114112 := by rcases hv with h | ⟨_, hb⟩ <;> omega
  by_cases h1 : c.toNat < 128
  · simp only [utf8EncodeChar, if_pos h1] at h
    obtain ⟨rfl, rfl⟩ : b = c.toNat ∧ bs = [] := by
      constructor <;> simp_all
    simp only [utf8DecodeStep, if_pos h1, List.nil_append, Char.ofNat_toNat]
  · by_cases h2 : c.toNat < 2048
    · simp only [utf8EncodeChar, if_neg h1, if_pos h2] at h
      obtain ⟨rfl, rfl⟩ : b = 192 + c.toNat / 64 ∧ bs = [128 + c.toNat % 64] := by
        constructor <;> simp_all
      have e4 : isCont (128 + c.toNat % 64) = true := by simp [isCont]; omega
      simp only [utf8DecodeStep, if_neg (show ¬(192 + c.toNat / 64 < 128) by omega),
        if_neg (show ¬(192 + c.toNat / 64 < 192) by omega),
        if_pos (show 192 + c.toNat / 64 < 224 by omega), List.cons_append,
        List.nil_append, e4, if_pos]
      rw [show (192 + c.toNat / 64 - 192) * 64 + (128 + c.toNat % 64 - 128) =
        c.toNat by omega, charOfScalar_toNat]
    · by_cases h3 : c.toNat < 65536
      · simp only [utf8EncodeChar, if_neg h1, if_neg h2, if_pos h3] at h
        obtain ⟨rfl, rfl⟩ : b = 224 + c.toNat / 4096 ∧
            bs = [128 + c.toNat / 64 % 64, 128 + c.toNat % 64] := by
          constructor <;> simp_all
        have e5 : isCont (128 + c.toNat / 64 % 64) = true := by
          simp [isCont]; omega
        have e6 : isCont (128 + c.toNat % 64) = true := by simp [isCont]; omega
        simp only [utf8DecodeStep,
          if_neg (show ¬(224 + c.toNat / 4096 < 128) by omega),
          if_neg (show ¬(224 + c.toNat / 4096 < 192) by omega),
          if_neg (show ¬(224 + c.toNat / 4096 < 224) by omega),
          if_pos (show 224 + c.toNat / 4096 < 240 by omega),
          List.cons_append, List.nil_append, e5, e6, Bool.and_self, if_pos]
        rw [show ((224 + c.toNat / 4096 - 224) * 64 +
          (128 + c.toNat / 64 % 64 - 128)) * 64 + (128 + c.toNat % 64 - 128) =
          c.toNat by omega, charOfScalar_toNat]
      · simp only [utf8EncodeChar, if_neg h1, if_neg h2, if_neg h3] at h
        obtain ⟨rfl, rfl⟩ : b = 240 + c.toNat / 262144 ∧
            bs = [128 + c.toNat / 4096 % 64, 128 + c.toNat / 64 % 64,
              128 + c.toNat % 64] := by
          constructor <;> simp_all
        have e6 : isCont (128 + c.toNat / 4096 % 64) = true := by
          simp [isCont]; omega
        have e7 : isCont (128 + c.toNat / 64 % 64) = true := by
          simp [isCont]; omega
        have e8 : isCont (128 + c.toNat % 64) = true := by simp [isCont]; omega
        simp only [utf8DecodeStep,
          if_neg (show ¬(240 + c.toNat / 262144 < 128) by omega),
          if_neg (show ¬(240 + c.toNat / 262144 < 192) by omega),
          if_neg (show ¬(240 + c.toNat / 262144 < 224) by omega),
          if_neg (show ¬(240 + c.toNat / 262144 < 240) by omega),
          if_pos (show 240 + c.toNat / 262144 < 248 by omega),
          List.cons_append, List.nil_append, e6, e7, e8, Bool.and_self, if_pos]
        rw [show (((240 + c.toNat / 262144 - 240) * 64 +
          (128 + c.toNat / 4096 % 64 - 128)) * 64 +
          (128 + c.toNat / 64 % 64 - 128)) * 64 + (128 + c.toNat % 64 - 128) =
          c.toNat by omega, charOfScalar_toNat]

theorem utf8EncodeChar_shape (c : Char) :
    ∃ b bs, utf8EncodeChar c = b :: bs := by
  simp only [utf8EncodeChar]
  repeat' split
  all_goals exact ⟨_, _, rfl⟩

theorem utf8DecodeAux_nil (fuel : Nat) : utf8DecodeAux fuel [] = [] := by
  cases fuel <;> rfl

theorem utf8DecodeAux_encodeChar (c : Char) (rest : List Nat) (fuel : Nat) :
    utf8DecodeAux (fuel + 1) (utf8EncodeChar c ++ rest) =
      c :: utf8DecodeAux fuel rest := by
  obtain ⟨b, bs, hshape⟩ := utf8EncodeChar_shape c
  rw [hshape, List.cons_append]
  have hstep := utf8DecodeStep_encodeChar c rest b bs hshape
  simp only [utf8DecodeAux, hstep]

theorem utf8EncodeChars_length (cs : List Char) :
    cs.length ≤ (utf8EncodeChars cs).length := by
  induction cs with
  | nil => simp [utf8EncodeChars]
  | cons c rest ih =>
    obtain ⟨b, bs, hshape⟩ := utf8EncodeChar_shape c
    have h : utf8EncodeChars (c :: rest) =
        utf8EncodeChar c ++ utf8EncodeChars rest := by
      simp [utf8EncodeChars]
    rw [h, hshape]
    simp only [List.length_cons, List.cons_append, List.length_append]
    omega

theorem utf8DecodeAux_encodeChars (cs : List Char) :
    ∀ fuel, cs.length ≤ fuel →
      utf8DecodeAux (fuel + 1) (utf8EncodeChars cs) = cs := by
  induction cs with
  | nil => intro fuel _; simp [utf8EncodeChars, utf8DecodeAux]
  | cons c rest ih =>
    intro fuel hf
    have h : utf8EncodeChars (c :: rest) =
        utf8EncodeChar c ++ utf8EncodeChars rest := by
      simp [utf8EncodeChars]
    rw [h, utf8DecodeAux_encodeChar]
    cases fuel with
    | zero => simp at hf
    | succ f => rw [ih f (by simp at hf; omega)]

theorem utf8Decode_encodeChars (cs : List Char) :
    utf8Decode (utf8EncodeChars cs) = cs := by
  rw [utf8Decode]
  exact utf8DecodeAux_encodeChars cs (utf8EncodeChars cs).length
    (utf8EncodeChars_length cs)

/-! ## Lemmas: JSON numbers -/

/-- Value of a little-endian digit list. -/
def valLE : List Nat → Nat
  | [] => 0
  | d :: ds => d + 10 * valLE ds

theorem valLE_natDigitsAux (fuel n : Nat) (h : n < 10 ^ fuel) :
    valLE (natDigitsAux fuel n) = n := by
  induction fuel generalizing n with
  | zero => simp at h; simp [natDigitsAux, valLE, h]
  | succ fuel ih =>
    simp only [natDigitsAux]
    by_cases hn : n = 0
    · simp [hn, valLE]
    · simp only [if_neg hn, valLE]
      rw [ih (n / 10) (by rw [pow_succ] at h; omega)]
      omega

theorem valLE_natDigits (n : Nat) : valLE (natDigits n) = n :=
  valLE_natDigitsAux (n + 1) n
    (lt_trans (Nat.lt_pow_self (by norm_num) n)
      (Nat.pow_lt_pow_right (by norm_num) (by omega)))

theorem natDigitsAux_lt (fuel n : Nat) : ∀ d ∈ natDigitsAux fuel n, d < 10 := by
  induction fuel generalizing n with
  | zero => simp [natDigitsAux]
  | succ fuel ih =>
    simp only [natDigitsAux]
    by_cases hn : n = 0
    · simp [hn]
    · simp only [if_neg hn, List.mem_cons]
      intro d hd
      rcases hd with hd | hd
      · omega
      · exact ih (n / 10) d hd

theorem natDigits_ne_nil (n : Nat) (hn : n ≠ 0) : natDigits n ≠ [] := by
  simp [natDigits, natDigitsAux, hn]

/-- The digit character of a digit value. -/
def digitChar10 (d : Nat) : Char := Char.ofNat (48 + d)

theorem dval_digitChar10 : ∀ d < 10, dval (digitChar10 d) = some d := by decide

theorem isDigit_digitChar10 : ∀ d < 10, (digitChar10 d).isDigit = true := by
  decide

theorem digitChar10_not_ws : ∀ d < 10, isWsChar (digitChar10 d) = false := by
  decide

/-- A list position at which a JSON number literal may stop: end of input or
a character that cannot extend the literal. -/
def noNumTail : List Char → Prop
  | [] => True
  | c :: _ => c.isDigit = false ∧ c ≠ '.' ∧ c ≠ 'e' ∧ c ≠ 'E'

theorem parseDigitsList_digits (ds : List Nat) (hd : ∀ d ∈ ds, d < 10)
    (rest : List Char) (hrest : noNumTail rest) :
    parseDigitsList (ds.map digitChar10 ++ rest) = (ds, rest) := by
  induction ds with
  | nil =>
    cases rest with
    | nil => rfl
    | cons c cs =>
      obtain ⟨h1, _⟩ := hrest
      simp [parseDigitsList, dval, h1]
  | cons d ds ih =>
    have hd0 : d < 10 := hd d (by simp)
    simp only [List.map_cons, List.cons_append, parseDigitsList,
      dval_digitChar10 d hd0, List.append_eq]
    rw [ih (fun x hx => hd x (by simp [hx]))]

theorem digitsVal_reverse (ds : List Nat) :
    digitsVal ds.reverse = valLE ds := by
  induction ds with
  | nil => rfl
  | cons d ds ih =>
    simp only [List.reverse_cons, digitsVal, List.foldl_append, List.foldl_cons,
      List.foldl_nil, valLE]
    simp only [digitsVal] at ih
    omega

theorem natChars_eq_map (n : Nat) (hn : n ≠ 0) :
    natChars n = ((natDigits n).reverse).map digitChar10 := by
  simp [natChars, hn, digitChar10]

theorem parseDigitsList_natChars (n : Nat) (rest : List Char)
    (hrest : noNumTail rest) :
    ∃ ds, parseDigitsList (natChars n ++ rest) = (ds, rest) ∧ ds ≠ [] ∧
      digitsVal ds = n := by
  by_cases hn : n = 0
  · subst hn
    refine ⟨[0], ?_, by simp, rfl⟩
    have h0 : natChars 0 = [digitChar10 0] := rfl
    rw [h0, show [digitChar10 0] = ([0] : List Nat).map digitChar10 from rfl]
    exact parseDigitsList_digits [0] (by simp) rest hrest
  · refine ⟨(natDigits n).reverse, ?_, by simp [natDigits_ne_nil n hn], ?_⟩
    · rw [natChars_eq_map n hn]
      exact parseDigitsList_digits _ (by
        intro d hd
        exact natDigitsAux_lt _ _ d (List.mem_reverse.mp hd)) rest hrest
    · rw [digitsVal_reverse, valLE_natDigits]

theorem natChars_head (m : Nat) :
    ∃ d cs', d < 10 ∧ natChars m = digitChar10 d :: cs' := by
  by_cases hm : m = 0
  · exact ⟨0, [], by omega, by simp [hm, natChars, digitChar10]⟩
  · rw [natChars_eq_map m hm]
    have hne := natDigits_ne_nil m hm
    cases h : (natDigits m).reverse with
    | nil => simp_all
    | cons d ds =>
      have hd : d < 10 := by
        have : d ∈ natDigits m := by
          rw [← List.mem_reverse, h]; simp
        exact natDigitsAux_lt _ _ d this
      exact ⟨d, ds.map digitChar10, hd, by simp [h]⟩

theorem digitChar10_ne_minus : ∀ d < 10, digitChar10 d ≠ '-' := by decide

theorem parseSign_natChars (m : Nat) (rest : List Char) :
    parseSign (natChars m ++ rest) = (false, natChars m ++ rest) := by
  obtain ⟨d, cs', hd, hm⟩ := natChars_head m
  rw [hm]
  simp only [List.cons_append, parseSign]
  split
  · rename_i heq
    exact absurd (List.head_eq_of_cons_eq heq) (digitChar10_ne_minus d hd)
  · rfl

theorem parseFracPart_noNumTail (cs : List Char) (h : noNumTail cs) :
    parseFracPart cs = ([], cs) := by
  cases cs with
  | nil => rfl
  | cons c cs' =>
    obtain ⟨_, h2, _, _⟩ := h
    simp only [parseFracPart]
    split
    · rename_i heq
      exact absurd (List.head_eq_of_cons_eq heq.symm).symm h2
    · rfl

theorem parseExpPart_noNumTail (cs : List Char) (h : noNumTail cs) :
    parseExpPart cs = some (0, cs) := by
  cases cs with
  | nil => rfl
  | cons c cs' =>
    obtain ⟨_, _, h3, h4⟩ := h
    simp only [parseExpPart]
    rw [if_neg]
    push_neg
    exact ⟨h3, h4⟩

theorem parseNumber_natChars (m : Nat) (rest : List Char)
    (hrest : noNumTail rest) :
    parseNumber (natChars m ++ rest) = some ((m : Int), rest) := by
  obtain ⟨ds, hds, hne, hval⟩ := parseDigitsList_natChars m rest hrest
  simp only [parseNumber, parseSign_natChars, hds]
  rw [if_neg (by simp [hne])]
  simp only [parseFracPart_noNumTail rest hrest, parseExpPart_noNumTail rest hrest]
  simp [hval]

theorem parseNumber_intChars (n : Int) (rest : List Char)
    (hrest : noNumTail rest) :
    parseNumber (intChars n ++ rest) = some (n, rest) := by
  by_cases hn : n < 0
  · simp only [intChars, if_pos hn, List.cons_append]
    obtain ⟨ds, hds, hne, hval⟩ := parseDigitsList_natChars n.natAbs rest hrest
    simp only [parseNumber, parseSign, hds]
    rw [if_neg (by simp [hne])]
    simp only [parseFracPart_noNumTail rest hrest,
      parseExpPart_noNumTail rest hrest]
    simp only [List.append_nil, hval]
    have habs : -|n| = n := by rw [abs_of_neg hn]; ring
    simp [habs]
  · simp only [intChars, if_neg hn]
    rw [parseNumber_natChars n.natAbs rest hrest,
      Int.natAbs_of_nonneg (by omega)]

/-! ## Lemmas: JSON strings -/

theorem hexVal_hexChar : ∀ v < 16, hexVal (hexChar v) = some v := by decide

theorem parseStringBody_escChars (cs : List Char) (rest : List Char) :
    parseStringBody (escChars cs ++ '"' :: rest) = some (cs, rest) := by
  induction cs with
  | nil => simp [escChars, parseStringBody]
  | cons c cs ih =>
    have hstep : escChars (c :: cs) = escChar c ++ escChars cs := by
      simp [escChars]
    rw [hstep, List.append_assoc]
    by_cases h1 : c = '"'
    · subst h1
      simp [escChar, parseStringBody, escDecode, ih]
    · by_cases h2 : c = '\\'
      · subst h2
        simp [escChar, parseStringBody, escDecode, ih]
      · by_cases h3 : c = Char.ofNat 8
        · subst h3
          simp [escChar, parseStringBody, escDecode, ih]
        · by_cases h4 : c = Char.ofNat 9
          · subst h4
            simp [escChar, parseStringBody, escDecode, ih]
          · by_cases h5 : c = Char.ofNat 10
            · subst h5
              simp [escChar, parseStringBody, escDecode, ih]
            · by_cases h6 : c = Char.ofNat 12
              · subst h6
                simp [escChar, parseStringBody, escDecode, ih]
              · by_cases h7 : c = Char.ofNat 13
                · subst h7
                  simp [escChar, parseStringBody, escDecode, ih]
                · by_cases h8 : c.toNat < 32
                  · rw [escChar, if_neg h1, if_neg h2, if_neg h3, if_neg h4,
                      if_neg h5, if_neg h6, if_neg h7, if_pos h8]
                    simp only [List.cons_append, List.nil_append,
                      parseStringBody,
                      hexVal_hexChar _ (show c.toNat / 16 < 16 by omega),
                      hexVal_hexChar _ (show c.toNat % 16 < 16 by omega)]
                    rw [show hexVal '0' = some 0 from by decide]
                    have e2 : c.toNat < 55296 := by omega
                    have e3 : c.toNat / 16 * 16 + c.toNat % 16 = c.toNat := by
                      omega
                    simp [Char.ofNat_toNat, ih]
                    rw [e3, if_pos e2, Char.ofNat_toNat]
                  · rw [escChar, if_neg h1, if_neg h2, if_neg h3, if_neg h4,
                      if_neg h5, if_neg h6, if_neg h7, if_neg h8]
                    rw [List.singleton_append, parseStringBody.eq_def]
                    split
                    · rename_i heq
                      simp at heq
                    · rename_i heq
                      exact absurd (List.head_eq_of_cons_eq heq) h1
                    · rename_i heq
                      exact absurd (List.head_eq_of_cons_eq heq) h2
                    · rename_i x0 c2 rest2 hx1 hx2 heq
                      injection heq with hh ht
                      subst hh
                      subst ht
                      rw [ih]
                      rfl

/-! ## Lemmas: objects and well-formedness -/

theorem stringMk_data (s : String) : String.mk s.data = s := by
  cases s
  rfl

theorem insertField_notMem (acc : List (String × Json)) (k : String) (v : Json)
    (h : ∀ p ∈ acc, p.1 ≠ k) : insertField acc k v = acc ++ [(k, v)] := by
  induction acc with
  | nil => rfl
  | cons p rest ih =>
    have hp : p.1 ≠ k := h p (by simp)
    cases p with
    | mk k' v' =>
      simp only [insertField, if_neg hp, List.cons_append]
      rw [ih (fun q hq => h q (by simp [hq]))]

theorem foldl_insertField (fields : List (String × Json)) :
    ∀ acc, (∀ p ∈ acc, ∀ q ∈ fields, p.1 ≠ q.1) →
    (fields.map Prod.fst).Nodup →
    fields.foldl (fun a kv => insertField a kv.1 kv.2) acc = acc ++ fields := by
  induction fields with
  | nil => intro acc _ _; simp
  | cons kv rest ih =>
    intro acc hdisj hnodup
    simp only [List.foldl_cons]
    rw [insertField_notMem acc kv.1 kv.2
      (fun p hp => hdisj p hp kv (by simp))]
    rw [ih (acc ++ [kv]) ?_ ?_]
    · simp
    · intro p hp q hq
      rcases List.mem_append.mp hp with hp | hp
      · exact hdisj p hp q (by simp [hq])
      · simp at hp
        subst hp
        simp only [List.map_cons, List.nodup_cons] at hnodup
        intro hk
        exact hnodup.1 (hk ▸ List.mem_map_of_mem Prod.fst hq)
    · simp only [List.map_cons, List.nodup_cons] at hnodup
      exact hnodup.2

theorem collapseFields_eq_self (fields : List (String × Json))
    (h : (fields.map Prod.fst).Nodup) : collapseFields fields = fields := by
  rw [collapseFields, foldl_insertField fields [] (by simp) h]
  rfl

theorem wfList_iff (items : List Json) :
    Json.wfList items = true ↔ ∀ j ∈ items, Json.wf j = true := by
  induction items with
  | nil => simp [Json.wfList]
  | cons j js ih => simp [Json.wfList, ih]

theorem wfFields_iff (fields : List (String × Json)) :
    Json.wfFields fields = true ↔ ∀ kv ∈ fields, Json.wf kv.2 = true := by
  induction fields with
  | nil => simp [Json.wfFields]
  | cons kv fs ih => simp [Json.wfFields, ih]

theorem wf_arr_iff (items : List Json) :
    Json.wf (.arr items) = true ↔ ∀ j ∈ items, Json.wf j = true := by
  rw [Json.wf]
  exact wfList_iff items

theorem wf_obj_iff (fields : List (String × Json)) :
    Json.wf (.obj fields) = true ↔
      (fields.map Prod.fst).Nodup ∧ ∀ kv ∈ fields, Json.wf kv.2 = true := by
  rw [Json.wf]
  simp [nodupKeys, wfFields_iff]

/-! ## Fuel accounting for the parser -/

mutual

/-- A fuel bound sufficient for `parseValue` to parse the serialization of
a value. -/
def fuelNeeded : Json → Nat
  | .null => 1
  | .bool _ => 1
  | .num _ => 1
  | .str _ => 1
  | .arr items => 1 + itemsFuel items
  | .obj fields => 1 + fieldsFuel fields

/-- Fuel bound for `parseItems`. -/
def itemsFuel : List Json → Nat
  | [] => 1
  | j :: js => 1 + fuelNeeded j + itemsFuel js

/-- Fuel bound for `parseFields`. -/
def fieldsFuel : List (String × Json) → Nat
  | [] => 1
  | kv :: fs => 1 + fuelNeeded kv.2 + fieldsFuel fs

end

theorem fuelNeeded_pos (j : Json) : 1 ≤ fuelNeeded j := by
  cases j <;> simp [fuelNeeded]

theorem itemsFuel_pos (items : List Json) : 1 ≤ itemsFuel items := by
  cases items with
  | nil => simp [itemsFuel]
  | cons j js => simp [itemsFuel]; omega

theorem fieldsFuel_pos (fields : List (String × Json)) :
    1 ≤ fieldsFuel fields := by
  cases fields with
  | nil => simp [fieldsFuel]
  | cons kv fs => simp [fieldsFuel]; omega

theorem natChars_ne_nil (n : Nat) : natChars n ≠ [] := by
  obtain ⟨d, cs', _, h⟩ := natChars_head n
  simp [h]

theorem intChars_ne_nil (n : Int) : intChars n ≠ [] := by
  rw [intChars]
  split
  · simp
  · exact natChars_ne_nil _

mutual

theorem fuelNeeded_le_len (j : Json) :
    fuelNeeded j ≤ 2 * (stringifyVal j).length := by
  cases j with
  | null => simp [fuelNeeded, stringifyVal]
  | bool b => cases b <;> simp [fuelNeeded, stringifyVal]
  | num n =>
    have := intChars_ne_nil n
    have : 1 ≤ (intChars n).length := by
      cases h : intChars n with
      | nil => simp_all
      | cons a l => simp
    simp [fuelNeeded, stringifyVal]
    omega
  | str s => simp [fuelNeeded, stringifyVal]; omega
  | arr items =>
    have h := itemsFuel_le_len items
    simp [fuelNeeded, stringifyVal]
    omega
  | obj fields =>
    have h := fieldsFuel_le_len fields
    simp [fuelNeeded, stringifyVal]
    omega

theorem itemsFuel_le_len (items : List Json) :
    itemsFuel items ≤ 2 * (stringifyItems items).length + 3 := by
  cases items with
  | nil => simp [itemsFuel, stringifyItems]
  | cons j js =>
    have h1 := fuelNeeded_le_len j
    cases js with
    | nil => simp [itemsFuel, stringifyItems, fuelNeeded_pos]; omega
    | cons j2 js2 =>
      have h2 := itemsFuel_le_len (j2 :: js2)
      simp [itemsFuel, stringifyItems] at h2 ⊢
      omega

theorem fieldsFuel_le_len (fields : List (String × Json)) :
    fieldsFuel fields ≤ 2 * (stringifyFields fields).length + 3 := by
  cases fields with
  | nil => simp [fieldsFuel, stringifyFields]
  | cons kv fs =>
    cases kv with
    | mk k v =>
      have h1 := fuelNeeded_le_len v
      cases fs with
      | nil => simp [fieldsFuel, stringifyFields]; omega
      | cons kv2 fs2 =>
        have h2 := fieldsFuel_le_len (kv2 :: fs2)
        simp [fieldsFuel, stringifyFields] at h2 ⊢
        omega

end

/-! ## Head-character facts for the serializer -/

theorem skipWs_cons (c : Char) (t : List Char) (h : isWsChar c = false) :
    skipWs (c :: t) = c :: t := by
  simp [skipWs, List.dropWhile_cons, h]

theorem digitChar10_facts : ∀ d < 10,
    digitChar10 d ≠ '"' ∧ digitChar10 d ≠ 't' ∧ digitChar10 d ≠ 'f' ∧
    digitChar10 d ≠ 'n' ∧ digitChar10 d ≠ '[' ∧ digitChar10 d ≠ lbrace ∧
    isWsChar (digitChar10 d) = false ∧ digitChar10 d ≠ ']' ∧
    digitChar10 d ≠ rbrace ∧ digitChar10 d ≠ ',' ∧ digitChar10 d ≠ ':' := by
  decide

theorem minus_facts :
    ('-' : Char) ≠ '"' ∧ ('-' : Char) ≠ 't' ∧ ('-' : Char) ≠ 'f' ∧
    ('-' : Char) ≠ 'n' ∧ ('-' : Char) ≠ '[' ∧ ('-' : Char) ≠ lbrace ∧
    isWsChar '-' = false ∧ ('-' : Char) ≠ ']' ∧ ('-' : Char) ≠ rbrace ∧
    ('-' : Char) ≠ ',' ∧ ('-' : Char) ≠ ':' := by
  decide

theorem intChars_head (n : Int) :
    ∃ c cs, intChars n = c :: cs ∧ (c = '-' ∨ (∃ d, d < 10 ∧ c = digitChar10 d)) := by
  rw [intChars]
  split
  · exact ⟨'-', _, rfl, Or.inl rfl⟩
  · obtain ⟨d, cs', hd, h⟩ := natChars_head n.natAbs
    exact ⟨digitChar10 d, cs', h, Or.inr ⟨d, hd, rfl⟩⟩

theorem stringifyVal_head (j : Json) :
    ∃ c cs, stringifyVal j = c :: cs ∧ isWsChar c = false ∧ c ≠ ']' ∧
      c ≠ rbrace := by
  cases j with
  | null => refine ⟨'n', _, rfl, ?_, ?_, ?_⟩ <;> decide
  | bool b =>
    cases b with
    | true => refine ⟨'t', _, rfl, ?_, ?_, ?_⟩ <;> decide
    | false => refine ⟨'f', _, rfl, ?_, ?_, ?_⟩ <;> decide
  | num n =>
    obtain ⟨c, cs, hic, hc⟩ := intChars_head n
    refine ⟨c, cs, by simp [stringifyVal, hic], ?_, ?_, ?_⟩
    · rcases hc with rfl | ⟨d, hd, rfl⟩
      · exact minus_facts.2.2.2.2.2.2.1
      · exact (digitChar10_facts d hd).2.2.2.2.2.2.1
    · rcases hc with rfl | ⟨d, hd, rfl⟩
      · exact minus_facts.2.2.2.2.2.2.2.1
      · exact (digitChar10_facts d hd).2.2.2.2.2.2.2.1
    · rcases hc with rfl | ⟨d, hd, rfl⟩
      · exact minus_facts.2.2.2.2.2.2.2.2.1
      · exact (digitChar10_facts d hd).2.2.2.2.2.2.2.2.1
  | str s => refine ⟨'"', _, rfl, ?_, ?_, ?_⟩ <;> decide
  | arr items => refine ⟨'[', _, rfl, ?_, ?_, ?_⟩ <;> decide
  | obj fields => refine ⟨lbrace, _, rfl, ?_, ?_, ?_⟩ <;> decide




theorem stringifyItems_head (j : Json) (js : List Json) :
    ∃ c cs, stringifyItems (j :: js) = c :: cs ∧ isWsChar c = false ∧
      c ≠ ']' ∧ c ≠ rbrace := by
  obtain ⟨c, cs, hc, h1, h2, h3⟩ := stringifyVal_head j
  cases js with
  | nil => exact ⟨c, cs, by simp [stringifyItems, hc], h1, h2, h3⟩
  | cons j2 js2 =>
    refine ⟨c, cs ++ ',' :: stringifyItems (j2 :: js2), ?_, h1, h2, h3⟩
    simp [stringifyItems, hc]


theorem stringifyFields_head (kv : String × Json) (fs : List (String × Json)) :
    ∃ cs, stringifyFields (kv :: fs) = '"' :: cs := by
  cases kv with
  | mk k v =>
    cases fs with
    | nil => exact ⟨_, rfl⟩
    | cons kv2 fs2 => exact ⟨_, rfl⟩


/-- Position right after a serialized value inside an array or object: the
continuation starts with a separator or closer, so number parsing stops. -/
theorem noNumTail_comma (rest : List Char) : noNumTail (',' :: rest) := by
  refine ⟨by decide, by decide, by decide, by decide⟩

theorem noNumTail_rsq (rest : List Char) : noNumTail (']' :: rest) := by
  refine ⟨by decide, by decide, by decide, by decide⟩

theorem noNumTail_rbrace (rest : List Char) : noNumTail (rbrace :: rest) := by
  refine ⟨by decide, by decide, by decide, by decide⟩

/-- Tail condition needed for the serialize/parse round trip: a number must
not be followed by characters extending the literal. -/
def numTailOk : Json → List Char → Prop
  | .num _, rest => noNumTail rest
  | _, _ => True

theorem numTailOk_of_noNumTail (j : Json) (rest : List Char)
    (h : noNumTail rest) : numTailOk j rest := by
  cases j <;> first
  | exact trivial
  | (simp only [numTailOk]; exact h)

theorem parseRoundTrip (fuel : Nat) :
    (∀ j rest, Json.wf j = true → fuelNeeded j ≤ fuel → numTailOk j rest →
      parseValue fuel (stringifyVal j ++ rest) = some (j, rest)) ∧
    (∀ items rest, (∀ j ∈ items, Json.wf j = true) → items ≠ [] →
      itemsFuel items ≤ fuel →
      parseItems fuel (stringifyItems items ++ ']' :: rest) =
        some (items, rest)) ∧
    (∀ fields rest, (∀ kv ∈ fields, Json.wf kv.2 = true) → fields ≠ [] →
      fieldsFuel fields ≤ fuel →
      parseFields fuel (stringifyFields fields ++ rbrace :: rest) =
        some (fields, rest)) := by
  induction fuel using Nat.strong_induction_on with
  | _ fuel ih =>
  cases fuel with
  | zero =>
    refine ⟨?_, ?_, ?_⟩
    · intro j rest _ hf _
      exact absurd hf (by have := fuelNeeded_pos j; omega)
    · intro items rest _ _ hf
      exact absurd hf (by have := itemsFuel_pos items; omega)
    · intro fields rest _ _ hf
      exact absurd hf (by have := fieldsFuel_pos fields; omega)
  | succ fuel =>
  have ihV := (ih fuel (by omega)).1
  have ihI := (ih fuel (by omega)).2.1
  have ihF := (ih fuel (by omega)).2.2
  refine ⟨?_, ?_, ?_⟩
  · -- parseValue round trip
    intro j rest hwf hfuel htail
    cases j with
    | null =>
      rw [show stringifyVal Json.null ++ rest = 'n' :: 'u' :: 'l' :: 'l' :: rest
        from by simp [stringifyVal]]
      simp only [parseValue, skipWs_cons 'n' ('u' :: 'l' :: 'l' :: rest)
        (by decide)]
    | bool b =>
      cases b with
      | true =>
        rw [show stringifyVal (Json.bool true) ++ rest =
          't' :: 'r' :: 'u' :: 'e' :: rest from by simp [stringifyVal]]
        simp only [parseValue, skipWs_cons 't' ('r' :: 'u' :: 'e' :: rest)
          (by decide)]
      | false =>
        rw [show stringifyVal (Json.bool false) ++ rest =
          'f' :: 'a' :: 'l' :: 's' :: 'e' :: rest from by simp [stringifyVal]]
        simp only [parseValue, skipWs_cons 'f' ('a' :: 'l' :: 's' :: 'e' :: rest)
          (by decide)]
    | str s =>
      rw [show stringifyVal (Json.str s) ++ rest =
        '"' :: (escChars s.data ++ '"' :: rest) from by simp [stringifyVal]]
      simp only [parseValue,
        skipWs_cons '"' (escChars s.data ++ '"' :: rest) (by decide)]
      show Option.map (fun p => (Json.str (String.mk p.1), p.2))
        (parseStringBody (escChars s.data ++ '"' :: rest)) =
        some (Json.str s, rest)
      rw [parseStringBody_escChars]
      simp [stringMk_data]
    | num n =>
      obtain ⟨c, cs, hic, hc⟩ := intChars_head n
      have hcf : c ≠ '"' ∧ c ≠ 't' ∧ c ≠ 'f' ∧ c ≠ 'n' ∧ c ≠ '[' ∧
          c ≠ lbrace ∧ isWsChar c = false := by
        rcases hc with rfl | ⟨d, hd, rfl⟩
        · have m := minus_facts
          exact ⟨m.1, m.2.1, m.2.2.1, m.2.2.2.1, m.2.2.2.2.1, m.2.2.2.2.2.1,
            m.2.2.2.2.2.2.1⟩
        · have m := digitChar10_facts d hd
          exact ⟨m.1, m.2.1, m.2.2.1, m.2.2.2.1, m.2.2.2.2.1, m.2.2.2.2.2.1,
            m.2.2.2.2.2.2.1⟩
      have hdig : c = '-' ∨ c.isDigit = true := by
        rcases hc with rfl | ⟨d, hd, rfl⟩
        · exact Or.inl rfl
        · exact Or.inr (isDigit_digitChar10 d hd)
      rw [show stringifyVal (Json.num n) ++ rest = c :: (cs ++ rest) from by
        simp [stringifyVal, hic]]
      simp only [parseValue, skipWs_cons c (cs ++ rest) hcf.2.2.2.2.2.2]
      split
      · rename_i heq
        exact absurd (List.head_eq_of_cons_eq heq) hcf.1
      · rename_i heq
        exact absurd (List.head_eq_of_cons_eq heq) hcf.2.1
      · rename_i heq
        exact absurd (List.head_eq_of_cons_eq heq) hcf.2.2.1
      · rename_i heq
        exact absurd (List.head_eq_of_cons_eq heq) hcf.2.2.2.1
      · rename_i heq
        exact absurd (List.head_eq_of_cons_eq heq) hcf.2.2.2.2.1
      · rename_i c2 rest2 hx1 hx2 hx3 hx4 hx5 heq
        injection heq with hh ht
        subst hh
        subst ht
        rw [if_neg hcf.2.2.2.2.2.1, if_pos hdig]
        rw [show c :: (cs ++ rest) = intChars n ++ rest from by simp [hic]]
        rw [parseNumber_intChars n rest htail]
        rfl
      · rename_i heq
        simp at heq
    | arr items =>
      have hwf' := (wf_arr_iff items).mp hwf
      rw [show stringifyVal (Json.arr items) ++ rest =
        '[' :: (stringifyItems items ++ ']' :: rest) from by simp [stringifyVal]]
      simp only [parseValue,
        skipWs_cons '[' (stringifyItems items ++ ']' :: rest) (by decide)]
      cases items with
      | nil =>
        show (match skipWs (stringifyItems [] ++ ']' :: rest) with
          | ']' :: rest2 => some (Json.arr [], rest2)
          | _ => Option.map (fun p => (Json.arr p.1, p.2))
              (parseItems fuel (stringifyItems [] ++ ']' :: rest))) =
          some (Json.arr [], rest)
        rw [show stringifyItems [] ++ ']' :: rest = ']' :: rest from by
          simp [stringifyItems]]
        rw [skipWs_cons ']' rest (by decide)]
        rfl
      | cons j js =>
        obtain ⟨c, cs, hc, hws, hrb, _⟩ := stringifyItems_head j js
        rw [hc]
        show (match skipWs ((c :: cs) ++ ']' :: rest) with
          | ']' :: rest2 => some (Json.arr [], rest2)
          | _ => Option.map (fun p => (Json.arr p.1, p.2))
              (parseItems fuel ((c :: cs) ++ ']' :: rest))) =
          some (Json.arr (j :: js), rest)
        rw [List.cons_append, skipWs_cons c (cs ++ ']' :: rest) hws]
        split
        · rename_i heq
          exact absurd (List.head_eq_of_cons_eq heq) hrb
        · rw [← List.cons_append, ← hc,
            ihI (j :: js) rest hwf' (by simp) (by
              simp only [fuelNeeded, itemsFuel, fieldsFuel] at hfuel
              try simp only [fuelNeeded, itemsFuel, fieldsFuel]
              omega)]
          rfl
    | obj fields =>
      obtain ⟨hnodup, hwfv⟩ := (wf_obj_iff fields).mp hwf
      rw [show stringifyVal (Json.obj fields) ++ rest =
        lbrace :: (stringifyFields fields ++ rbrace :: rest) from by
        simp [stringifyVal]]
      simp only [parseValue,
        skipWs_cons lbrace (stringifyFields fields ++ rbrace :: rest)
          (by decide)]
      split
      · rename_i heq
        exact absurd (List.head_eq_of_cons_eq heq) (by decide)
      · rename_i heq
        exact absurd (List.head_eq_of_cons_eq heq) (by decide)
      · rename_i heq
        exact absurd (List.head_eq_of_cons_eq heq) (by decide)
      · rename_i heq
        exact absurd (List.head_eq_of_cons_eq heq) (by decide)
      · rename_i heq
        exact absurd (List.head_eq_of_cons_eq heq) (by decide)
      · rename_i c2 rest2 hx1 hx2 hx3 hx4 hx5 heq
        injection heq with hh ht
        subst hh
        subst ht
        rw [if_pos rfl]
        cases fields with
        | nil =>
          rw [show stringifyFields [] ++ rbrace :: rest = rbrace :: rest from by
            simp [stringifyFields]]
          rw [skipWs_cons rbrace rest (by decide)]
          simp
        | cons kv fs =>
          obtain ⟨cs, hc⟩ := stringifyFields_head kv fs
          rw [hc, List.cons_append,
            skipWs_cons '"' (cs ++ rbrace :: rest) (by decide)]
          show (if ('"' : Char) = rbrace then
              some (Json.obj [], cs ++ rbrace :: rest)
            else Option.map (fun p => (Json.obj (collapseFields p.1), p.2))
              (parseFields fuel ('"' :: (cs ++ rbrace :: rest)))) =
            some (Json.obj (kv :: fs), rest)
          rw [if_neg (by decide)]
          rw [show ('"' :: (cs ++ rbrace :: rest) : List Char) =
            stringifyFields (kv :: fs) ++ rbrace :: rest from by simp [hc]]
          rw [ihF (kv :: fs) rest hwfv (by simp) (by
            simp only [fuelNeeded, itemsFuel, fieldsFuel] at hfuel
            try simp only [fuelNeeded, itemsFuel, fieldsFuel]
            omega)]
          simp [collapseFields_eq_self _ hnodup]
      · rename_i heq
        simp at heq
  · -- parseItems round trip
    intro items rest hwf hne hfuel
    cases items with
    | nil => exact absurd rfl hne
    | cons j js =>
      simp only [parseItems]
      cases js with
      | nil =>
        rw [show stringifyItems [j] ++ ']' :: rest =
          stringifyVal j ++ ']' :: rest from by simp [stringifyItems]]
        rw [ihV j (']' :: rest) (hwf j (by simp)) (by
          simp only [fuelNeeded, itemsFuel, fieldsFuel] at hfuel
          try simp only [fuelNeeded, itemsFuel, fieldsFuel]
          omega) (numTailOk_of_noNumTail j _ (noNumTail_rsq rest))]
        show (match skipWs (']' :: rest) with
          | ',' :: rest2 => Option.map (fun p => (j :: p.1, p.2))
              (parseItems fuel rest2)
          | ']' :: rest2 => some ([j], rest2)
          | _ => none) = some ([j], rest)
        rw [skipWs_cons ']' rest (by decide)]
        rfl
      | cons j2 js2 =>
        rw [show stringifyItems (j :: j2 :: js2) ++ ']' :: rest =
          stringifyVal j ++ (',' :: (stringifyItems (j2 :: js2) ++ ']' :: rest))
          from by simp [stringifyItems]]
        rw [ihV j _ (hwf j (by simp)) (by
          simp only [fuelNeeded, itemsFuel, fieldsFuel] at hfuel
          try simp only [fuelNeeded, itemsFuel, fieldsFuel]
          omega) (numTailOk_of_noNumTail j _ (noNumTail_comma _))]
        show (match skipWs (',' :: (stringifyItems (j2 :: js2) ++
            ']' :: rest)) with
          | ',' :: rest2 => Option.map (fun p => (j :: p.1, p.2))
              (parseItems fuel rest2)
          | ']' :: rest2 => some ([j], rest2)
          | _ => none) = some (j :: j2 :: js2, rest)
        rw [skipWs_cons ',' (stringifyItems (j2 :: js2) ++ ']' :: rest)
          (by decide)]
        show Option.map (fun p => (j :: p.1, p.2))
            (parseItems fuel (stringifyItems (j2 :: js2) ++ ']' :: rest)) =
          some (j :: j2 :: js2, rest)
        rw [ihI (j2 :: js2) rest (fun x hx => hwf x (by simp [hx])) (by simp)
          (by
          simp only [fuelNeeded, itemsFuel, fieldsFuel] at hfuel
          try simp only [fuelNeeded, itemsFuel, fieldsFuel]
          omega)]
        rfl
  · -- parseFields round trip
    intro fields rest hwfv hne hfuel
    cases fields with
    | nil => exact absurd rfl hne
    | cons kv fs =>
      cases kv with
      | mk k v =>
      simp only [parseFields]
      cases fs with
      | nil =>
        rw [show stringifyFields [(k, v)] ++ rbrace :: rest =
          '"' :: (escChars k.data ++ '"' :: (':' ::
            (stringifyVal v ++ rbrace :: rest))) from by
          simp [stringifyFields]]
        rw [skipWs_cons '"' _ (by decide)]
        show (match parseStringBody (escChars k.data ++ '"' ::
            (':' :: (stringifyVal v ++ rbrace :: rest))) with
          | none => none
          | some (key, rest2) =>
            match skipWs rest2 with
            | ':' :: rest3 =>
              match parseValue fuel rest3 with
              | none => none
              | some (v2, rest4) =>
                match skipWs rest4 with
                | ',' :: rest5 => (parseFields fuel rest5).map
                    (fun p => ((String.mk key, v2) :: p.1, p.2))
                | c :: rest5 =>
                    if c = rbrace then some ([(String.mk key, v2)], rest5)
                    else none
                | [] => none
            | _ => none) = some ([(k, v)], rest)
        rw [parseStringBody_escChars]
        show (match skipWs (':' :: (stringifyVal v ++ rbrace :: rest)) with
          | ':' :: rest3 =>
            match parseValue fuel rest3 with
            | none => none
            | some (v2, rest4) =>
              match skipWs rest4 with
              | ',' :: rest5 => (parseFields fuel rest5).map
                  (fun p => ((String.mk k.data, v2) :: p.1, p.2))
              | c :: rest5 =>
                  if c = rbrace then some ([(String.mk k.data, v2)], rest5)
                  else none
              | [] => none
          | _ => none) = some ([(k, v)], rest)
        rw [skipWs_cons ':' _ (by decide)]
        show (match parseValue fuel (stringifyVal v ++ rbrace :: rest) with
          | none => none
          | some (v2, rest4) =>
            match skipWs rest4 with
            | ',' :: rest5 => (parseFields fuel rest5).map
                (fun p => ((String.mk k.data, v2) :: p.1, p.2))
            | c :: rest5 =>
                if c = rbrace then some ([(String.mk k.data, v2)], rest5)
                else none
            | [] => none) = some ([(k, v)], rest)
        rw [ihV v _ (hwfv (k, v) (by simp)) (by
          simp only [fuelNeeded, itemsFuel, fieldsFuel] at hfuel
          try simp only [fuelNeeded, itemsFuel, fieldsFuel]
          omega) (numTailOk_of_noNumTail v _ (noNumTail_rbrace _))]
        show (match skipWs (rbrace :: rest) with
          | ',' :: rest5 => (parseFields fuel rest5).map
              (fun p => ((String.mk k.data, v) :: p.1, p.2))
          | c :: rest5 =>
              if c = rbrace then some ([(String.mk k.data, v)], rest5)
              else none
          | [] => none) = some ([(k, v)], rest)
        rw [skipWs_cons rbrace rest (by decide)]
        split
        · rename_i heq
          exact absurd (List.head_eq_of_cons_eq heq) (by decide)
        · rename_i c5 rest5 hx heq
          injection heq with hh ht
          subst hh
          subst ht
          rw [if_pos rfl, stringMk_data]
        · rename_i heq
          simp at heq
      | cons kv2 fs2 =>
        rw [show stringifyFields ((k, v) :: kv2 :: fs2) ++ rbrace :: rest =
          '"' :: (escChars k.data ++ '"' :: (':' ::
            (stringifyVal v ++ ',' ::
              (stringifyFields (kv2 :: fs2) ++ rbrace :: rest)))) from by
          simp [stringifyFields]]
        rw [skipWs_cons '"' _ (by decide)]
        show (match parseStringBody (escChars k.data ++ '"' ::
            (':' :: (stringifyVal v ++ ',' ::
              (stringifyFields (kv2 :: fs2) ++ rbrace :: rest)))) with
          | none => none
          | some (key, rest2) =>
            match skipWs rest2 with
            | ':' :: rest3 =>
              match parseValue fuel rest3 with
              | none => none
              | some (v2, rest4) =>
                match skipWs rest4 with
                | ',' :: rest5 => (parseFields fuel rest5).map
                    (fun p => ((String.mk key, v2) :: p.1, p.2))
                | c :: rest5 =>
                    if c = rbrace then some ([(String.mk key, v2)], rest5)
                    else none
                | [] => none
            | _ => none) = some ((k, v) :: kv2 :: fs2, rest)
        rw [parseStringBody_escChars]
        show (match skipWs (':' :: (stringifyVal v ++ ',' ::
            (stringifyFields (kv2 :: fs2) ++ rbrace :: rest))) with
          | ':' :: rest3 =>
            match parseValue fuel rest3 with
            | none => none
            | some (v2, rest4) =>
              match skipWs rest4 with
              | ',' :: rest5 => (parseFields fuel rest5).map
                  (fun p => ((String.mk k.data, v2) :: p.1, p.2))
              | c :: rest5 =>
                  if c = rbrace then some ([(String.mk k.data, v2)], rest5)
                  else none
              | [] => none
          | _ => none) = some ((k, v) :: kv2 :: fs2, rest)
        rw [skipWs_cons ':' _ (by decide)]
        show (match parseValue fuel (stringifyVal v ++ ',' ::
            (stringifyFields (kv2 :: fs2) ++ rbrace :: rest)) with
          | none => none
          | some (v2, rest4) =>
            match skipWs rest4 with
            | ',' :: rest5 => (parseFields fuel rest5).map
                (fun p => ((String.mk k.data, v2) :: p.1, p.2))
            | c :: rest5 =>
                if c = rbrace then some ([(String.mk k.data, v2)], rest5)
                else none
            | [] => none) = some ((k, v) :: kv2 :: fs2, rest)
        rw [ihV v _ (hwfv (k, v) (by simp)) (by
          simp only [fuelNeeded, itemsFuel, fieldsFuel] at hfuel
          try simp only [fuelNeeded, itemsFuel, fieldsFuel]
          omega) (numTailOk_of_noNumTail v _ (noNumTail_comma _))]
        show (match skipWs (',' :: (stringifyFields (kv2 :: fs2) ++
            rbrace :: rest)) with
          | ',' :: rest5 => (parseFields fuel rest5).map
              (fun p => ((String.mk k.data, v) :: p.1, p.2))
          | c :: rest5 =>
              if c = rbrace then some ([(String.mk k.data, v)], rest5)
              else none
          | [] => none) = some ((k, v) :: kv2 :: fs2, rest)
        rw [skipWs_cons ',' _ (by decide)]
        show (parseFields fuel (stringifyFields (kv2 :: fs2) ++
            rbrace :: rest)).map
            (fun p => ((String.mk k.data, v) :: p.1, p.2)) =
          some ((k, v) :: kv2 :: fs2, rest)
        rw [ihF (kv2 :: fs2) rest (fun x hx => hwfv x (by simp [hx]))
          (by simp) (by
            simp only [fuelNeeded, itemsFuel, fieldsFuel] at hfuel
            try simp only [fuelNeeded, itemsFuel, fieldsFuel]
            omega)]
        simp [stringMk_data]

/-- The serialize/parse round trip at the top level: the model of
`JSON.parse` recovers any well-formed value from its `JSON.stringify`
output. -/
theorem parseChars_stringify (j : Json) (hwf : Json.wf j = true) :
    Json.parseChars (stringifyVal j) = some j := by
  rw [Json.parseChars]
  have h := (parseRoundTrip (2 * (stringifyVal j).length + 2)).1 j [] hwf
    (by have := fuelNeeded_le_len j; omega)
    (numTailOk_of_noNumTail j [] trivial)
  rw [List.append_nil] at h
  rw [h]
  simp [skipWs]

/-! ## Parsing tokens produced by the builder -/

theorem typeofObjectCheck_of_alg (j : Json) (v : Json)
    (h : getPropJS j "alg" = some v) : typeofObjectCheck j = true := by
  cases j <;> simp_all [getPropJS, typeofObjectCheck, jsTypeof]

theorem encodedSegment_noDot (cs : List Char) :
    ∀ c ∈ b64urlEncode (utf8EncodeChars cs), c ≠ '.' :=
  b64urlEncode_noDot _ (utf8EncodeChars_lt cs)

theorem decode_encodedSegment (cs : List Char) :
    b64urlDecode (b64urlEncode (utf8EncodeChars cs)) =
      some (utf8EncodeChars cs) :=
  b64urlDecode_encode _ (utf8EncodeChars_lt cs)

theorem splitDots_token (hP pP sP : List Char)
    (h0 : ∀ c ∈ hP, c ≠ '.') (h1 : ∀ c ∈ pP, c ≠ '.')
    (h2 : ∀ c ∈ sP, c ≠ '.') :
    splitDots (hP ++ '.' :: (pP ++ '.' :: sP)) = [hP, pP, sP] := by
  rw [splitDots_append_noDot hP _ h0, splitDots_append_noDot pP _ h1,
    splitDots_noDot sP h2]

theorem typCheckFails_of_typJWT (h : Json)
    (htyp : getPropJS h "typ" = some (.str "JWT")) :
    typCheckFails h = false := by
  simp [typCheckFails, hasProp, htyp]

theorem parseJWT_createJWT {K : Type}
    (sign : String → K → List Nat → List Nat) (key : K)
    (header payload : Json) (a : String)
    (hwfH : Json.wf header = true) (hwfP : Json.wf payload = true)
    (halg : getPropJS header "alg" = some (.str a))
    (hvalid : isValidAlgorithmStr a = true)
    (htyp : getPropJS header "typ" = some (.str "JWT"))
    (hptype : typeofObjectCheck payload = true)
    (hsignB : ∀ b ∈ sign a key (utf8EncodeChars
      (b64urlEncode (utf8EncodeChars (stringifyVal header)) ++ '.' ::
        b64urlEncode (utf8EncodeChars (stringifyVal payload)))), b < 256)
    (ev : Option Int) (iv sv jv : Option String) (av : Option (List String))
    (nv tv : Option Int)
    (hexp : readNumDate payload "exp" = some ev)
    (hiss : readStr payload "iss" = some iv)
    (hsub : readStr payload "sub" = some sv)
    (haud : readAud payload = some av)
    (hnbf : readNumDate payload "nbf" = some nv)
    (hiat : readNumDate payload "iat" = some tv)
    (hjti : readStr payload "jti" = some jv) :
    createJWT sign key header payload = some (String.mk
      (b64urlEncode (utf8EncodeChars (stringifyVal header)) ++ '.' ::
        (b64urlEncode (utf8EncodeChars (stringifyVal payload)) ++ '.' ::
          b64urlEncode (sign a key (utf8EncodeChars
            (b64urlEncode (utf8EncodeChars (stringifyVal header)) ++ '.' ::
              b64urlEncode (utf8EncodeChars (stringifyVal payload)))))))) ∧
    parseJWT (String.mk
      (b64urlEncode (utf8EncodeChars (stringifyVal header)) ++ '.' ::
        (b64urlEncode (utf8EncodeChars (stringifyVal payload)) ++ '.' ::
          b64urlEncode (sign a key (utf8EncodeChars
            (b64urlEncode (utf8EncodeChars (stringifyVal header)) ++ '.' ::
              b64urlEncode (utf8EncodeChars (stringifyVal payload)))))))) =
      .ok { value := String.mk
              (b64urlEncode (utf8EncodeChars (stringifyVal header)) ++ '.' ::
                (b64urlEncode (utf8EncodeChars (stringifyVal payload)) ++ '.' ::
                  b64urlEncode (sign a key (utf8EncodeChars
                    (b64urlEncode (utf8EncodeChars (stringifyVal header)) ++
                      '.' :: b64urlEncode (utf8EncodeChars
                        (stringifyVal payload))))))),
            header := header, payload := payload,
            parts := (b64urlEncode (utf8EncodeChars (stringifyVal header)),
              b64urlEncode (utf8EncodeChars (stringifyVal payload)),
              b64urlEncode (sign a key (utf8EncodeChars
                (b64urlEncode (utf8EncodeChars (stringifyVal header)) ++ '.' ::
                  b64urlEncode (utf8EncodeChars (stringifyVal payload)))))),
            algorithm := a, expiresAt := ev, issuer := iv, subject := sv,
            audiences := av, notBefore := nv, issuedAt := tv, jwtId := jv } := by
  have hhtype := typeofObjectCheck_of_alg header _ halg
  constructor
  · rw [createJWT, halg]
    simp only [hvalid, if_pos]
    simp [List.append_assoc]
  · have hsplit := splitDots_token
      (b64urlEncode (utf8EncodeChars (stringifyVal header)))
      (b64urlEncode (utf8EncodeChars (stringifyVal payload)))
      (b64urlEncode (sign a key (utf8EncodeChars
        (b64urlEncode (utf8EncodeChars (stringifyVal header)) ++ '.' ::
          b64urlEncode (utf8EncodeChars (stringifyVal payload))))))
      (encodedSegment_noDot _) (encodedSegment_noDot _)
      (b64urlEncode_noDot _ (hsignB))
    rw [parseJWT]
    simp only [String.data]
    rw [hsplit]
    simp only [decode_encodedSegment, utf8Decode_encodeChars,
      parseChars_stringify header hwfH, parseChars_stringify payload hwfP,
      hhtype, Bool.not_true, if_false, halg, hvalid, Bool.not_false,
      typCheckFails_of_typJWT header htyp, hptype, hexp, hiss, hsub, haud,
      hnbf, hiat, hjti]
    simp

/-- Build a token and validate it, projecting out the data the round-trip
property speaks about: the validated token's header, payload and algorithm
(`none` when building fails or validation rejects). -/
def buildValidateResult {K : Type} (sign : String → K → List Nat → List Nat)
    (verify : String → K → List Nat → List Nat → Bool) (now : Int)
    (alg : String) (key : K) (header payload : Json) :
    Option (Json × Json × String) :=
  match createJWT sign key header payload with
  | none => none
  | some tok =>
    match validateJWT verify now alg key tok with
    | .ok j => some (j.header, j.payload, j.algorithm)
    | .error _ => none

theorem validateJWT_createJWT {K : Type}
    (sign : String → K → List Nat → List Nat)
    (verify : String → K → List Nat → List Nat → Bool)
    (now : Int) (key : K) (header payload : Json) (a : String)
    (hwfH : Json.wf header = true) (hwfP : Json.wf payload = true)
    (halg : getPropJS header "alg" = some (.str a))
    (hvalid : isValidAlgorithmStr a = true)
    (htyp : getPropJS header "typ" = some (.str "JWT"))
    (hptype : typeofObjectCheck payload = true)
    (hsignB : ∀ d : List Nat, ∀ b ∈ sign a key d, b < 256)
    (hver : ∀ d : List Nat, verify a key (sign a key d) d = true)
    (ev : Option Int) (iv sv jv : Option String) (av : Option (List String))
    (nv tv : Option Int)
    (hexp : readNumDate payload "exp" = some ev)
    (hiss : readStr payload "iss" = some iv)
    (hsub : readStr payload "sub" = some sv)
    (haud : readAud payload = some av)
    (hnbf : readNumDate payload "nbf" = some nv)
    (hiat : readNumDate payload "iat" = some tv)
    (hjti : readStr payload "jti" = some jv)
    (hexpT : ∀ t, ev = some t → now < t)
    (hnbfT : ∀ t, nv = some t → ¬now < t) :
    buildValidateResult sign verify now a key header payload =
      some (header, payload, a) := by
  obtain ⟨hcreate, hparse⟩ := parseJWT_createJWT sign key header payload a
    hwfH hwfP halg hvalid htyp hptype (hsignB _) ev iv sv jv av nv tv
    hexp hiss hsub haud hnbf hiat hjti
  rw [buildValidateResult, hcreate]
  simp only [validateJWT, hparse]
  rw [if_neg (by simp)]
  have hsig := b64urlDecode_encode (sign a key (utf8EncodeChars
    (b64urlEncode (utf8EncodeChars (stringifyVal header)) ++ '.' ::
      b64urlEncode (utf8EncodeChars (stringifyVal payload))))) (hsignB _)
  cases ev with
  | none =>
    cases nv with
    | none => simp [isWithinExpirationDate, hsig, hver]
    | some t =>
      have hn := hnbfT t rfl
      simp [isWithinExpirationDate, hsig, hver, hn]
  | some t0 =>
    have he := hexpT t0 rfl
    cases nv with
    | none => simp [isWithinExpirationDate, hsig, hver, he]
    | some t =>
      have hn := hnbfT t rfl
      simp [isWithinExpirationDate, hsig, hver, he, hn]

/-! ## Inversion of a successful parse -/

theorem parseJWT_ok_inv (tok : String) (j : JWT) (h : parseJWT tok = .ok j) :
    readNumDate j.payload "exp" = some j.expiresAt ∧
    readStr j.payload "iss" = some j.issuer ∧
    readStr j.payload "sub" = some j.subject ∧
    readAud j.payload = some j.audiences ∧
    readNumDate j.payload "nbf" = some j.notBefore ∧
    readNumDate j.payload "iat" = some j.issuedAt ∧
    readStr j.payload "jti" = some j.jwtId ∧
    j.value = tok ∧
    splitDots tok.data = [j.parts.1, j.parts.2.1, j.parts.2.2] ∧
    isValidAlgorithmStr j.algorithm = true ∧
    getPropJS j.header "alg" = some (.str j.algorithm) ∧
    typeofObjectCheck j.header = true ∧
    typCheckFails j.header = false ∧
    typeofObjectCheck j.payload = true := by
  rw [parseJWT] at h
  split at h
  case h_2 => exact ParseResult.noConfusion h
  rename_i p0 p1 p2 heqsplit
  split at h
  case h_1 => exact ParseResult.noConfusion h
  rename_i raw0 heq0
  split at h
  case h_1 => exact ParseResult.noConfusion h
  rename_i raw1 heq1
  split at h
  case h_1 => exact ParseResult.noConfusion h
  rename_i header heqh
  split at h
  case isTrue => exact ParseResult.noConfusion h
  rename_i hhobj
  split at h
  case h_2 => exact ParseResult.noConfusion h
  case h_3 => exact ParseResult.noConfusion h
  rename_i algStr heqalg
  split at h
  case isTrue => exact ParseResult.noConfusion h
  rename_i hvalid
  split at h
  case isTrue => exact ParseResult.noConfusion h
  rename_i htypok
  split at h
  case h_1 => exact ParseResult.noConfusion h
  rename_i payload heqp
  split at h
  case isTrue => exact ParseResult.noConfusion h
  rename_i hpobj
  split at h
  case h_2 => exact ParseResult.noConfusion h
  rename_i expv issv subv audv nbfv iatv jtiv heprd heird hesrd heard henrd
    heiat hejti
  injection h with hj
  subst hj
  simp_all

/-! ## Reader lemmas -/

theorem readNumDate_num (p : Json) (k : String) (n : Int)
    (hget : getPropJS p k = some (.num n)) :
    readNumDate p k = some (some (n * 1000)) := by
  simp [readNumDate, hasProp, hget]

theorem readAud_str (p : Json) (s : String)
    (hget : getPropJS p "aud" = some (.str s)) :
    readAud p = some (some [s]) := by
  simp [readAud, hasProp, hget]

theorem readAud_arr (p : Json) (items : List Json) (ss : List String)
    (hget : getPropJS p "aud" = some (.arr items))
    (hstr : asStringList items = some ss) :
    readAud p = some (some ss) := by
  simp [readAud, hasProp, hget, hstr]

theorem readAud_bad (p : Json) (v : Json)
    (hget : getPropJS p "aud" = some v)
    (hnstr : ∀ s, v ≠ .str s)
    (hnarr : ∀ items, v = .arr items → asStringList items = none) :
    readAud p = none := by
  cases v with
  | str s => exact absurd rfl (hnstr s)
  | arr items => simp [readAud, hasProp, hget, hnarr items rfl]
  | null => simp [readAud, hasProp, hget]
  | bool b => simp [readAud, hasProp, hget]
  | num n => simp [readAud, hasProp, hget]
  | obj fields => simp [readAud, hasProp, hget]

/-! ## The claims -/

/-- C1: when a token parses but its header `alg` differs from the
caller-supplied expected algorithm, `validateJWT` rejects with the
algorithm-mismatch error (`Error("Invalid algorithm")`), and the signing
primitive is never consulted: the result is this error for **every**
`verify` function, so the outcome cannot depend on any call to it. -/
theorem validateJWT_algMismatch {K : Type}
    (verify : String → K → List Nat → List Nat → Bool) (now : Int)
    (alg : String) (key : K) (tok : String) (a : String)
    (hp : parsedAlg tok = some a) (hne : a ≠ alg) :
    validateJWT verify now alg key tok = .error .invalidAlgorithm := by
  rw [parsedAlg] at hp
  split at hp
  · rename_i p heq
    injection hp with hp
    simp only [validateJWT, heq]
    rw [if_pos (by rw [hp]; exact hne)]
  · exact Option.noConfusion hp

/-- C6: with a matching algorithm, a parsed `exp` strictly in the past makes
`validateJWT` fail with the expired error before any `verify` call (the
result is independent of `verify`), while a future `exp` passes the
expiration check (the result is never the expired error). -/
theorem validateJWT_expiration {K : Type} (now : Int) (alg : String)
    (key : K) (tok : String) (t : Int)
    (hpa : parsedAlg tok = some alg)
    (hpe : parsedExpiresAt tok = some (some t)) :
    (∀ verify : String → K → List Nat → List Nat → Bool, t ≤ now →
      validateJWT verify now alg key tok = .error .expiredJWT) ∧
    (∀ verify : String → K → List Nat → List Nat → Bool, now < t →
      validateJWT verify now alg key tok ≠ .error .expiredJWT) := by
  rw [parsedAlg] at hpa
  rw [parsedExpiresAt] at hpe
  cases hparse : parseJWT tok with
  | nul => rw [hparse] at hpa; exact Option.noConfusion hpa
  | exn => rw [hparse] at hpa; exact Option.noConfusion hpa
  | ok p =>
    rw [hparse] at hpa hpe
    injection hpa with hpa
    injection hpe with hpe
    constructor
    · intro verify hpast
      simp only [validateJWT, hparse]
      rw [if_neg (by simp [hpa])]
      rw [hpe]
      have hb : isWithinExpirationDate now t = false := by
        simp [isWithinExpirationDate]
        omega
      simp [hb]
    · intro verify hfut heq
      simp only [validateJWT, hparse] at heq
      rw [if_neg (by simp [hpa])] at heq
      rw [hpe] at heq
      have hb : isWithinExpirationDate now t = true := by
        simp [isWithinExpirationDate]
        omega
      simp only [hb, Bool.not_true, Bool.false_eq_true, if_false] at heq
      split at heq
      · simp at heq
      · split at heq
        · simp at heq
        · split at heq <;> simp at heq

/-- C9: the numeric claims `exp`, `nbf`, `iat` of a successfully parsed
token are stored as absolute times, the claim value (integer seconds)
multiplied by 1000 (milliseconds), with exact integer arithmetic. -/
theorem parseJWT_timeClaims (tok : String) (j : JWT) (n : Int)
    (h : parseJWT tok = .ok j) :
    (getPropJS j.payload "exp" = some (.num n) →
      j.expiresAt = some (n * 1000)) ∧
    (getPropJS j.payload "nbf" = some (.num n) →
      j.notBefore = some (n * 1000)) ∧
    (getPropJS j.payload "iat" = some (.num n) →
      j.issuedAt = some (n * 1000)) := by
  obtain ⟨hexp, _, _, _, hnbf, hiat, _⟩ := parseJWT_ok_inv tok j h
  refine ⟨?_, ?_, ?_⟩
  · intro hget
    rw [readNumDate_num _ _ _ hget] at hexp
    injection hexp with hexp
    exact hexp.symm
  · intro hget
    rw [readNumDate_num _ _ _ hget] at hnbf
    injection hnbf with hnbf
    exact hnbf.symm
  · intro hget
    rw [readNumDate_num _ _ _ hget] at hiat
    injection hiat with hiat
    exact hiat.symm

/-- C10: every successfully parsed token has an algorithm that is one of
the 12 supported tags and equals the decoded header's `alg`; its `value`
field is the input string; and its three parts joined with dots reconstruct
the input exactly. -/
theorem parseJWT_ok_wellformed (tok : String) (j : JWT)
    (h : parseJWT tok = .ok j) :
    isValidAlgorithmStr j.algorithm = true ∧
    getPropJS j.header "alg" = some (.str j.algorithm) ∧
    j.value = tok ∧
    String.mk (j.parts.1 ++ '.' :: (j.parts.2.1 ++ '.' :: j.parts.2.2)) =
      tok := by
  obtain ⟨_, _, _, _, _, _, _, hval, hsplit, hvalid, halg, _⟩ :=
    parseJWT_ok_inv tok j h
  refine ⟨hvalid, halg, hval, ?_⟩
  have hj := joinDots_splitDots tok.data
  rw [hsplit] at hj
  simp only [joinDots] at hj
  rw [hj, stringMk_data]

theorem typCheckFails_of_bad (h : Json) (v : Json)
    (hget : getPropJS h "typ" = some v) (hne : v ≠ .str "JWT") :
    typCheckFails h = true := by
  cases v with
  | str s =>
    have hs : s ≠ "JWT" := by
      intro hx
      exact hne (by rw [hx])
    simp [typCheckFails, hasProp, hget, hs]
  | null => simp [typCheckFails, hasProp, hget]
  | bool b => simp [typCheckFails, hasProp, hget]
  | num n => simp [typCheckFails, hasProp, hget]
  | arr items => simp [typCheckFails, hasProp, hget]
  | obj fields => simp [typCheckFails, hasProp, hget]

/-- C7: audience normalization in `parseJWT`: a bare string `aud` is
returned as a one-element sequence, an all-string array is returned
unchanged, and any other `aud` value makes parsing fail with the `null`
return (MalformedJWT). -/
theorem parseJWT_audiences (tok : String) (j : JWT) (s : String)
    (items : List Json) (ss : List String) (p0 p1 p2 : List Char)
    (raw0 raw1 : List Nat)
    (header payload : Json) (algStr : String) (v : Json) :
    (parseJWT tok = .ok j → getPropJS j.payload "aud" = some (.str s) →
      j.audiences = some [s]) ∧
    (parseJWT tok = .ok j → getPropJS j.payload "aud" = some (.arr items) →
      asStringList items = some ss → j.audiences = some ss) ∧
    (splitDots tok.data = [p0, p1, p2] → b64urlDecode p0 = some raw0 →
      b64urlDecode p1 = some raw1 →
      Json.parseChars (utf8Decode raw0) = some header →
      typeofObjectCheck header = true →
      getPropJS header "alg" = some (.str algStr) →
      isValidAlgorithmStr algStr = true → typCheckFails header = false →
      Json.parseChars (utf8Decode raw1) = some payload →
      typeofObjectCheck payload = true →
      getPropJS payload "aud" = some v → (∀ s', v ≠ .str s') →
      (∀ its, v = .arr its → asStringList its = none) →
      parseJWT tok = .nul) := by
  refine ⟨?_, ?_, ?_⟩
  · intro h hget
    obtain ⟨_, _, _, haud, _⟩ := parseJWT_ok_inv tok j h
    rw [readAud_str _ _ hget] at haud
    injection haud with haud
    exact haud.symm
  · intro h hget hstr
    obtain ⟨_, _, _, haud, _⟩ := parseJWT_ok_inv tok j h
    rw [readAud_arr _ _ _ hget hstr] at haud
    injection haud with haud
    exact haud.symm
  · intro hsplit h0 h1 hh hhobj halg hvalid htypok hp hpobj hgetv hnstr hnarr
    have haudn := readAud_bad payload v hgetv hnstr hnarr
    rw [parseJWT, hsplit]
    simp only [h0, h1, hh, hhobj, Bool.not_true, Bool.false_eq_true, if_false,
      halg, hvalid, htypok, hp, hpobj, haudn]
    cases hx1 : readNumDate payload "exp" <;>
      cases hx2 : readStr payload "iss" <;>
      cases hx3 : readStr payload "sub" <;>
      cases hx4 : readNumDate payload "nbf" <;>
      cases hx5 : readNumDate payload "iat" <;>
      cases hx6 : readStr payload "jti" <;>
      rfl

/-- C8: a decoded header carrying a `typ` value other than exactly the
string `"JWT"` makes `parseJWT` return `null`; a header without `typ` is
not rejected by the `typ` test. -/
theorem parseJWT_typCheck (tok : String) (p0 p1 p2 : List Char)
    (raw0 raw1 : List Nat) (header : Json) (v : Json) (hdr2 : Json) :
    (splitDots tok.data = [p0, p1, p2] → b64urlDecode p0 = some raw0 →
      b64urlDecode p1 = some raw1 →
      Json.parseChars (utf8Decode raw0) = some header →
      getPropJS header "typ" = some v → v ≠ .str "JWT" →
      parseJWT tok = .nul) ∧
    (getPropJS hdr2 "typ" = none → typCheckFails hdr2 = false) := by
  constructor
  · intro hsplit h0 h1 hh hgetv hne
    rw [parseJWT, hsplit]
    simp only [h0, h1, hh]
    by_cases hhobj : typeofObjectCheck header
    · simp only [hhobj, Bool.not_true, Bool.false_eq_true, if_false]
      cases halg : getPropJS header "alg" with
      | none => rfl
      | some w =>
        cases w with
        | str aS =>
          by_cases hv : isValidAlgorithmStr aS
          · simp [hv, typCheckFails_of_bad header v hgetv hne]
          · simp [hv]
        | null => rfl
        | bool b => rfl
        | num n => rfl
        | arr its => rfl
        | obj fs => rfl
    · simp [hhobj]
  · intro hnone
    simp [typCheckFails, hasProp, hnone]

/-- C5 (amended): a payload segment that is valid JSON but neither an
object nor an array fails the `typeof` test and `parseJWT` returns `null`
(a JSON array passes the test, see the counterexample). -/
theorem parseJWT_nonObjectPayload (tok : String)
    (p0 p1 p2 : List Char) (raw0 raw1 : List Nat)
    (header payload : Json) (algStr : String)
    (hsplit : splitDots tok.data = [p0, p1, p2])
    (h0 : b64urlDecode p0 = some raw0) (h1 : b64urlDecode p1 = some raw1)
    (hh : Json.parseChars (utf8Decode raw0) = some header)
    (hhobj : typeofObjectCheck header = true)
    (halg : getPropJS header "alg" = some (.str algStr))
    (hvalid : isValidAlgorithmStr algStr = true)
    (htypok : typCheckFails header = false)
    (hp : Json.parseChars (utf8Decode raw1) = some payload)
    (hpobj : typeofObjectCheck payload = false) :
    parseJWT tok = .nul := by
  rw [parseJWT, hsplit]
  simp [h0, h1, hh, hhobj, halg, hvalid, htypok, hp, hpobj]

/-- `validateJWT` propagates a `parseJWT` exception unchanged. -/
theorem validateJWT_of_exn {K : Type}
    (verify : String → K → List Nat → List Nat → Bool) (now : Int)
    (alg : String) (key : K) (tok : String) (h : parseJWT tok = .exn) :
    validateJWT verify now alg key tok = .error .exn := by
  simp only [validateJWT, h]

/-- C4 (amended): a wire segment that base64url-decodes to text that is not
valid JSON makes `JSON.parse` throw; `parseJWT` does not catch, so the
exception escapes (outcome `.exn`, not the `null` return), and
`validateJWT` propagates it instead of its "Invalid JWT" error. -/
theorem parseJWT_badJSON {K : Type}
    (verify : String → K → List Nat → List Nat → Bool) (now : Int)
    (alg : String) (key : K) (tok : String) (p0 p1 p2 : List Char)
    (raw0 : List Nat)
    (hsplit : splitDots tok.data = [p0, p1, p2])
    (h0 : b64urlDecode p0 = some raw0) :
    (Json.parseChars (utf8Decode raw0) = none →
      parseJWT tok = .exn ∧
        validateJWT verify now alg key tok = .error .exn) ∧
    (∀ header raw1 algStr, Json.parseChars (utf8Decode raw0) = some header →
      typeofObjectCheck header = true →
      getPropJS header "alg" = some (.str algStr) →
      isValidAlgorithmStr algStr = true → typCheckFails header = false →
      b64urlDecode p1 = some raw1 →
      Json.parseChars (utf8Decode raw1) = none →
      parseJWT tok = .exn ∧
        validateJWT verify now alg key tok = .error .exn) := by
  constructor
  · intro hbad
    have hpe : parseJWT tok = .exn := by
      rw [parseJWT, hsplit]
      simp only [h0]
      cases h1 : b64urlDecode p1 with
      | none => rfl
      | some raw1 => simp [hbad]
    exact ⟨hpe, validateJWT_of_exn verify now alg key tok hpe⟩
  · intro header raw1 algStr hh hhobj halg hvalid htypok h1 hbad
    have hpe : parseJWT tok = .exn := by
      rw [parseJWT, hsplit]
      simp [h0, h1, hh, hhobj, halg, hvalid, htypok, hbad]
    exact ⟨hpe, validateJWT_of_exn verify now alg key tok hpe⟩

/-! ## Property-assignment lemmas for the builder header -/

theorem getField_insertField_ne (fs : List (String × Json)) (k : String)
    (v : Json) (key : String) (h : k ≠ key) :
    getField (insertField fs k v) key = getField fs key := by
  induction fs with
  | nil => simp [insertField, getField, h]
  | cons p rest ih =>
    cases p with
    | mk k' v' =>
      by_cases hk : k' = k
      · subst hk
        simp [insertField, getField, h]
      · simp only [insertField, if_neg hk]
        by_cases hk2 : k' = key
        · simp [getField, hk2]
        · simp [getField, hk2, ih]

theorem getField_foldl_insert_ne (hs : List (String × Json)) (key : String)
    (h : ∀ kv ∈ hs, kv.1 ≠ key) :
    ∀ fs, getField (hs.foldl (fun acc kv => insertField acc kv.1 kv.2) fs) key
      = getField fs key := by
  induction hs with
  | nil => intro fs; rfl
  | cons kv rest ih =>
    intro fs
    simp only [List.foldl_cons]
    rw [ih (fun x hx => h x (by simp [hx]))]
    exact getField_insertField_ne fs kv.1 kv.2 key (h kv (by simp))

theorem mem_insertField (fs : List (String × Json)) (k : String) (v : Json)
    (kv : String × Json) (h : kv ∈ insertField fs k v) :
    kv ∈ fs ∨ kv = (k, v) := by
  induction fs with
  | nil => simp [insertField] at h; simp [h]
  | cons p rest ih =>
    cases p with
    | mk k' v' =>
      by_cases hk : k' = k
      · subst hk
        simp only [insertField, if_pos rfl] at h
        rcases List.mem_cons.mp h with h | h
        · simp [h]
        · simp [List.mem_cons, h]
      · simp only [insertField, if_neg hk] at h
        rcases List.mem_cons.mp h with h | h
        · simp [List.mem_cons, h]
        · rcases ih h with h | h
          · simp [List.mem_cons, h]
          · simp [h]

theorem keys_mem_insertField (fs : List (String × Json)) (k : String)
    (v : Json) (key : String)
    (h : key ∈ (insertField fs k v).map Prod.fst) :
    key ∈ fs.map Prod.fst ∨ key = k := by
  simp only [List.mem_map] at h
  obtain ⟨kv, hkv, hfst⟩ := h
  rcases mem_insertField fs k v kv hkv with h | h
  · exact Or.inl (hfst ▸ List.mem_map_of_mem Prod.fst h)
  · subst h
    exact Or.inr hfst.symm

theorem nodup_insertField (fs : List (String × Json)) (k : String) (v : Json)
    (h : (fs.map Prod.fst).Nodup) :
    ((insertField fs k v).map Prod.fst).Nodup := by
  induction fs with
  | nil => simp [insertField]
  | cons p rest ih =>
    cases p with
    | mk k' v' =>
      simp only [List.map_cons, List.nodup_cons] at h
      by_cases hk : k' = k
      · subst hk
        simp only [insertField, if_true]
        simp only [List.map_cons, List.nodup_cons]
        exact h
      · simp only [insertField, if_neg hk, List.map_cons, List.nodup_cons]
        constructor
        · intro hmem
          rcases keys_mem_insertField rest k v k' hmem with hx | hx
          · exact h.1 hx
          · exact hk hx
        · exact ih h.2

theorem wf_insertField (fs : List (String × Json)) (k : String) (v : Json)
    (hfs : ∀ kv ∈ fs, Json.wf kv.2 = true) (hv : Json.wf v = true) :
    ∀ kv ∈ insertField fs k v, Json.wf kv.2 = true := by
  intro kv hkv
  rcases mem_insertField fs k v kv hkv with h | h
  · exact hfs kv h
  · rw [h]
    exact hv

theorem nodup_foldl_insertField (hs : List (String × Json)) :
    ∀ fs, (fs.map Prod.fst).Nodup →
    ((hs.foldl (fun acc kv => insertField acc kv.1 kv.2) fs).map
      Prod.fst).Nodup := by
  induction hs with
  | nil => intro fs h; exact h
  | cons kv rest ih =>
    intro fs h
    simp only [List.foldl_cons]
    exact ih _ (nodup_insertField fs kv.1 kv.2 h)

theorem wf_foldl_insertField (hs : List (String × Json))
    (hws : ∀ kv ∈ hs, Json.wf kv.2 = true) :
    ∀ fs, (∀ kv ∈ fs, Json.wf kv.2 = true) →
    ∀ kv ∈ hs.foldl (fun acc kv => insertField acc kv.1 kv.2) fs,
      Json.wf kv.2 = true := by
  induction hs with
  | nil => intro fs h; exact h
  | cons kv rest ih =>
    intro fs h
    simp only [List.foldl_cons]
    exact ih (fun x hx => hws x (by simp [hx])) _
      (wf_insertField fs kv.1 kv.2 h (hws kv (by simp)))

/-- Decoding the encoding of a serialized well-formed JSON value. -/
theorem decodeSegment_encode (j : Json) (hwf : Json.wf j = true) :
    decodeSegment (b64urlEncode (utf8EncodeChars (stringifyVal j))) =
      some j := by
  rw [decodeSegment, decodeSegmentText, decode_encodedSegment]
  simp [utf8Decode_encodeChars, parseChars_stringify j hwf]

/-- C3 (amended): in the builder-style `createJWT`, when the caller-supplied
custom headers do not themselves contain an `alg` key, the produced header
carries `alg` equal to the explicit `algorithm` argument — which is exactly
the tag passed to the signing primitive — and the produced token serializes
that header, so the header's `alg` matches the algorithm actually used to
sign.  (With a custom `alg` header the override wins while signing still
uses the argument; see the counterexample.)  The direct-form `createJWT`
always signs with `header.alg` by construction. -/
theorem createJWTBuilder_header_alg {K : Type}
    (sign : String → K → List Nat → List Nat) (nowMs : Int) (alg : String)
    (key : K) (payloadClaims : List (String × Json)) (o : JWTCreateOptions)
    (hval : isValidAlgorithmStr alg = true)
    (hnoalg : ∀ hs, o.headers = some hs → ∀ kv ∈ hs, kv.1 ≠ "alg")
    (hwfh : ∀ hs, o.headers = some hs → ∀ kv ∈ hs, Json.wf kv.2 = true) :
    getField (builderHeaderFields alg o.headers) "alg" =
      some (.str alg) ∧
    createJWTBuilder sign nowMs alg key payloadClaims (some o) =
      some (String.mk
        (b64urlEncode (utf8EncodeChars (stringifyVal
            (Json.obj (builderHeaderFields alg o.headers)))) ++ '.' ::
          b64urlEncode (utf8EncodeChars (stringifyVal
            (Json.obj (builderPayloadFields nowMs payloadClaims o)))) ++
            '.' :: b64urlEncode (sign alg key (utf8EncodeChars
              (b64urlEncode (utf8EncodeChars (stringifyVal
                  (Json.obj (builderHeaderFields alg o.headers)))) ++ '.' ::
                b64urlEncode (utf8EncodeChars (stringifyVal
                  (Json.obj (builderPayloadFields nowMs
                    payloadClaims o))))))))) ∧
    decodeSegment (b64urlEncode (utf8EncodeChars (stringifyVal
        (Json.obj (builderHeaderFields alg o.headers))))) =
      some (Json.obj (builderHeaderFields alg o.headers)) := by
  have hbase : getField
      (insertField (insertField [] "alg" (.str alg)) "typ" (.str "JWT"))
      "alg" = some (.str alg) := by
    simp [insertField, getField]
  have halgF : getField (builderHeaderFields alg o.headers) "alg" =
      some (.str alg) := by
    rw [builderHeaderFields.eq_def]
    cases ho : o.headers with
    | none => exact hbase
    | some hs =>
      rw [getField_foldl_insert_ne hs "alg" (hnoalg hs ho)]
      exact hbase
  have hwfo : Json.wf (Json.obj (builderHeaderFields alg o.headers)) =
      true := by
    rw [wf_obj_iff]
    constructor
    · rw [builderHeaderFields.eq_def]
      cases ho : o.headers with
      | none => simp [insertField]
      | some hs =>
        exact nodup_foldl_insertField hs _ (by simp [insertField])
    · rw [builderHeaderFields.eq_def]
      cases ho : o.headers with
      | none =>
        intro kv hkv
        simp [insertField] at hkv
        rcases hkv with h | h <;> simp [h, Json.wf]
      | some hs =>
        refine wf_foldl_insertField hs (hwfh hs ho) _ ?_
        intro kv hkv
        simp [insertField] at hkv
        rcases hkv with h | h <;> simp [h, Json.wf]
  refine ⟨halgF, ?_, decodeSegment_encode _ hwfo⟩
  simp only [createJWTBuilder]
  rw [if_pos hval]
  rfl

/-- C3 (counterexample): with a custom `alg` header the builder-style
`createJWT` produces a token whose header says `RS256` while the signature
was produced by the `HS256` primitive: the discriminating `sign` yields
`[7]` (encoded `Bw`) for HS256 and `[9]` (encoded `CQ`) for anything else,
and the produced token carries `Bw`. -/
theorem createJWTBuilder_algOverride_cex :
    createJWTBuilder
        (fun al (_ : Unit) _ => if al = "HS256" then [7] else [9])
        0 "HS256" () [] (some { headers := some [("alg", Json.str "RS256")] })
      = some "eyJhbGciOiJSUzI1NiIsInR5cCI6IkpXVCJ9.e30.Bw" ∧
    decodeSegment "eyJhbGciOiJSUzI1NiIsInR5cCI6IkpXVCJ9".data =
      some (.obj [("alg", .str "RS256"), ("typ", .str "JWT")]) ∧
    b64urlEncode [7] = "Bw".data ∧ b64urlEncode [9] = "CQ".data ∧
    ("RS256" : String) ≠ "HS256" := by
  refine ⟨rfl, rfl, rfl, rfl, by decide⟩

/-! ## Counterexamples and concrete witnesses -/

/-- C4 (counterexample to the frozen wording): the segment text is not valid
JSON, yet the outcome is the escaped exception, not the `null` return, and
`validateJWT` reports the propagated exception, not its invalid-JWT error. -/
theorem parseJWT_badJSON_cex :
    Json.parseChars "\x7b".data = none ∧
    parseJWT "ew.e30.x" = ParseResult.exn ∧
    parseJWT "ew.e30.x" ≠ ParseResult.nul ∧
    validateJWT (fun _ (_ : Unit) _ (_ : List Nat) => true) 0 "HS256" ()
      "ew.e30.x" = .error JWTError.exn ∧
    JWTError.exn ≠ JWTError.invalidJWT := by
  refine ⟨rfl, rfl, ?_, rfl, by decide⟩
  intro h
  rw [show parseJWT "ew.e30.x" = ParseResult.exn from rfl] at h
  exact ParseResult.noConfusion h

/-- Parse of the token whose payload segment is the JSON array text. -/
def jwtArr : JWT :=
  { value := "eyJhbGciOiJIUzI1NiJ9.W10.x",
    header := Json.obj [("alg", Json.str "HS256")],
    payload := Json.arr [],
    parts := ("eyJhbGciOiJIUzI1NiJ9".data, "W10".data, "x".data),
    algorithm := "HS256", expiresAt := none, issuer := none, subject := none,
    audiences := none, notBefore := none, issuedAt := none, jwtId := none }

/-- C5 (counterexample to the frozen wording): a payload segment decoding to
a JSON array is not rejected — the JS `typeof` of an array is the string
"object", so the payload check passes and `parseJWT` succeeds. -/
theorem parseJWT_arrayPayload_cex :
    decodeSegment "W10".data = some (Json.arr []) ∧
    typeofObjectCheck (Json.arr []) = true ∧
    parseJWT "eyJhbGciOiJIUzI1NiJ9.W10.x" = ParseResult.ok jwtArr ∧
    jwtArr.payload = Json.arr [] :=
  ⟨rfl, rfl, rfl, rfl⟩

/-- A verify primitive that accepts everything (used by witnesses where the
outcome must not depend on it). -/
def trueVerify : String → Unit → List Nat → List Nat → Bool :=
  fun _ _ _ _ => true

/-- A signing primitive returning a fixed byte signature. -/
def constSign : String → Unit → List Nat → List Nat :=
  fun _ _ _ => [1, 2, 3]

/-- The verify primitive matching `constSign`. -/
def eqVerify : String → Unit → List Nat → List Nat → Bool :=
  fun _ _ s _ => s == [1, 2, 3]

/-- Parse of the token with payload claim `aud` equal to the string
"svc-a". -/
def jwtAudA : JWT :=
  { value := "eyJhbGciOiJIUzI1NiJ9.eyJhdWQiOiJzdmMtYSJ9.x",
    header := Json.obj [("alg", Json.str "HS256")],
    payload := Json.obj [("aud", Json.str "svc-a")],
    parts := ("eyJhbGciOiJIUzI1NiJ9".data, "eyJhdWQiOiJzdmMtYSJ9".data,
      "x".data),
    algorithm := "HS256", expiresAt := none, issuer := none, subject := none,
    audiences := some ["svc-a"], notBefore := none, issuedAt := none,
    jwtId := none }

/-- Parse of the token with payload claim `aud` equal to the two-string
array. -/
def jwtAudAB : JWT :=
  { value := "eyJhbGciOiJIUzI1NiJ9.eyJhdWQiOlsic3ZjLWEiLCJzdmMtYiJdfQ.x",
    header := Json.obj [("alg", Json.str "HS256")],
    payload := Json.obj [("aud", Json.arr [Json.str "svc-a",
      Json.str "svc-b"])],
    parts := ("eyJhbGciOiJIUzI1NiJ9".data,
      "eyJhdWQiOlsic3ZjLWEiLCJzdmMtYiJdfQ".data, "x".data),
    algorithm := "HS256", expiresAt := none, issuer := none, subject := none,
    audiences := some ["svc-a", "svc-b"], notBefore := none,
    issuedAt := none, jwtId := none }

/-- Parse of the token with payload claim `exp` equal to 99. -/
def jwtExp99 : JWT :=
  { value := "eyJhbGciOiJIUzI1NiJ9.eyJleHAiOjk5fQ.x",
    header := Json.obj [("alg", Json.str "HS256")],
    payload := Json.obj [("exp", Json.num 99)],
    parts := ("eyJhbGciOiJIUzI1NiJ9".data, "eyJleHAiOjk5fQ".data, "x".data),
    algorithm := "HS256", expiresAt := some 99000, issuer := none,
    subject := none, audiences := none, notBefore := none, issuedAt := none,
    jwtId := none }

/-- Parse of the token with an empty payload object and empty signature
part. -/
def jwtEmpty : JWT :=
  { value := "eyJhbGciOiJIUzI1NiJ9.e30.",
    header := Json.obj [("alg", Json.str "HS256")],
    payload := Json.obj [],
    parts := ("eyJhbGciOiJIUzI1NiJ9".data, "e30".data, ([] : List Char)),
    algorithm := "HS256", expiresAt := none, issuer := none, subject := none,
    audiences := none, notBefore := none, issuedAt := none, jwtId := none }

/-- C1 witness: a token whose header says HS256, validated expecting RS256,
is rejected with the algorithm-mismatch error. -/
theorem validateJWT_algMismatch_witness :
    validateJWT trueVerify 0 "RS256" () "eyJhbGciOiJIUzI1NiJ9.e30." =
      .error .invalidAlgorithm :=
  validateJWT_algMismatch trueVerify 0 "RS256" ()
    "eyJhbGciOiJIUzI1NiJ9.e30." "HS256" rfl (by decide)

/-- C2 witness: building a token with header alg HS256 and payload claims
iss and exp, then validating at time 0 with a verify primitive matching the
signer, returns exactly the input header, payload and algorithm. -/
theorem validateJWT_createJWT_witness :
    buildValidateResult constSign eqVerify 0 "HS256" ()
      (Json.obj [("alg", Json.str "HS256"), ("typ", Json.str "JWT")])
      (Json.obj [("iss", Json.str "me"), ("exp", Json.num 99)]) =
      some (Json.obj [("alg", Json.str "HS256"), ("typ", Json.str "JWT")],
        Json.obj [("iss", Json.str "me"), ("exp", Json.num 99)], "HS256") :=
  validateJWT_createJWT constSign eqVerify 0 ()
    (Json.obj [("alg", Json.str "HS256"), ("typ", Json.str "JWT")])
    (Json.obj [("iss", Json.str "me"), ("exp", Json.num 99)]) "HS256"
    rfl rfl rfl rfl rfl rfl
    (fun d => show ∀ b ∈ [1, 2, 3], b < 256 by decide) (fun d => rfl)
    (some 99000) (some "me") none none none none none
    rfl rfl rfl rfl rfl rfl rfl
    (fun t ht => by injection ht with h2; omega)
    (fun t ht => Option.noConfusion ht)

/-- C6 witness: the exp-99 token is rejected as expired at time 1000000 ms
and is not rejected as expired at time 0 ms. -/
theorem validateJWT_expiration_witness :
    validateJWT trueVerify 1000000 "HS256" ()
      "eyJhbGciOiJIUzI1NiJ9.eyJleHAiOjk5fQ.x" = .error .expiredJWT ∧
    validateJWT trueVerify 0 "HS256" ()
      "eyJhbGciOiJIUzI1NiJ9.eyJleHAiOjk5fQ.x" ≠ .error .expiredJWT :=
  ⟨(validateJWT_expiration 1000000 "HS256" ()
      "eyJhbGciOiJIUzI1NiJ9.eyJleHAiOjk5fQ.x" 99000 rfl rfl).1 trueVerify
      (by decide),
   (validateJWT_expiration 0 "HS256" ()
      "eyJhbGciOiJIUzI1NiJ9.eyJleHAiOjk5fQ.x" 99000 rfl rfl).2 trueVerify
      (by decide)⟩

/-- C9 witness: the exp-99 token parses with expiresAt equal to 99 * 1000
milliseconds. -/
theorem parseJWT_timeClaims_witness : jwtExp99.expiresAt = some (99 * 1000) :=
  (parseJWT_timeClaims "eyJhbGciOiJIUzI1NiJ9.eyJleHAiOjk5fQ.x" jwtExp99 99
    rfl).1 rfl

/-- C10 witness: the empty-payload token parses with a supported algorithm
matching the header alg, preserves the input as value, and its parts joined
with dots rebuild the input. -/
theorem parseJWT_ok_wellformed_witness :
    isValidAlgorithmStr jwtEmpty.algorithm = true ∧
    getPropJS jwtEmpty.header "alg" = some (Json.str jwtEmpty.algorithm) ∧
    jwtEmpty.value = "eyJhbGciOiJIUzI1NiJ9.e30." ∧
    String.mk (jwtEmpty.parts.1 ++ '.' ::
        (jwtEmpty.parts.2.1 ++ '.' :: jwtEmpty.parts.2.2)) =
      "eyJhbGciOiJIUzI1NiJ9.e30." :=
  parseJWT_ok_wellformed "eyJhbGciOiJIUzI1NiJ9.e30." jwtEmpty rfl

/-- C7 witness: the string-aud token normalizes to a one-element list, the
array-aud token keeps its list, and the numeric-aud token parses to null. -/
theorem parseJWT_audiences_witness :
    jwtAudA.audiences = some ["svc-a"] ∧
    jwtAudAB.audiences = some ["svc-a", "svc-b"] ∧
    parseJWT "eyJhbGciOiJIUzI1NiJ9.eyJhdWQiOjV9.x" = ParseResult.nul :=
  ⟨(parseJWT_audiences "eyJhbGciOiJIUzI1NiJ9.eyJhdWQiOiJzdmMtYSJ9.x" jwtAudA
      "svc-a" [] [] [] [] [] [] [] Json.null Json.null "" Json.null).1
      rfl rfl,
   (parseJWT_audiences "eyJhbGciOiJIUzI1NiJ9.eyJhdWQiOlsic3ZjLWEiLCJzdmMtYiJdfQ.x"
      jwtAudAB "" [Json.str "svc-a", Json.str "svc-b"] ["svc-a", "svc-b"]
      [] [] [] [] [] Json.null Json.null "" Json.null).2.1 rfl rfl rfl,
   (parseJWT_audiences "eyJhbGciOiJIUzI1NiJ9.eyJhdWQiOjV9.x" jwtAudA ""
      [] [] "eyJhbGciOiJIUzI1NiJ9".data "eyJhdWQiOjV9".data "x".data
      (utf8EncodeChars "\x7b\"alg\":\"HS256\"\x7d".data)
      (utf8EncodeChars "\x7b\"aud\":5\x7d".data)
      (Json.obj [("alg", Json.str "HS256")])
      (Json.obj [("aud", Json.num 5)]) "HS256" (Json.num 5)).2.2
      rfl rfl rfl rfl rfl rfl rfl rfl rfl rfl rfl
      (fun s2 h => by injection h) (fun its h => by injection h)⟩

/-- C8 witness: a header with typ equal to the string "X" makes the parse
return null, and a header with no typ field passes the typ test. -/
theorem parseJWT_typCheck_witness :
    parseJWT "eyJhbGciOiJIUzI1NiIsInR5cCI6IlgifQ.e30.x" = ParseResult.nul ∧
    typCheckFails (Json.obj [("alg", Json.str "HS256")]) = false :=
  ⟨(parseJWT_typCheck "eyJhbGciOiJIUzI1NiIsInR5cCI6IlgifQ.e30.x"
      "eyJhbGciOiJIUzI1NiIsInR5cCI6IlgifQ".data "e30".data "x".data
      (utf8EncodeChars "\x7b\"alg\":\"HS256\",\"typ\":\"X\"\x7d".data)
      (utf8EncodeChars "\x7b\x7d".data)
      (Json.obj [("alg", Json.str "HS256"), ("typ", Json.str "X")])
      (Json.str "X") Json.null).1 rfl rfl rfl rfl rfl (by simp),
   (parseJWT_typCheck "x" [] [] [] [] [] Json.null Json.null
      (Json.obj [("alg", Json.str "HS256")])).2 rfl⟩

/-- C5 witness: a payload segment decoding to the JSON string "a" fails the
typeof test and the parse returns null. -/
theorem parseJWT_nonObjectPayload_witness :
    parseJWT "eyJhbGciOiJIUzI1NiJ9.ImEi.x" = ParseResult.nul :=
  parseJWT_nonObjectPayload "eyJhbGciOiJIUzI1NiJ9.ImEi.x"
    "eyJhbGciOiJIUzI1NiJ9".data "ImEi".data "x".data
    (utf8EncodeChars "\x7b\"alg\":\"HS256\"\x7d".data)
    (utf8EncodeChars "\"a\"".data)
    (Json.obj [("alg", Json.str "HS256")]) (Json.str "a") "HS256"
    rfl rfl rfl rfl rfl rfl rfl rfl rfl rfl

/-- C4 witness: a payload segment decoding to an unterminated brace is not
valid JSON; the parse outcome is the escaped exception and validation
propagates it. -/
theorem parseJWT_badJSON_witness :
    parseJWT "eyJhbGciOiJIUzI1NiJ9.ew.x" = ParseResult.exn ∧
    validateJWT trueVerify 0 "HS256" () "eyJhbGciOiJIUzI1NiJ9.ew.x" =
      .error .exn :=
  (parseJWT_badJSON trueVerify 0 "HS256" () "eyJhbGciOiJIUzI1NiJ9.ew.x"
    "eyJhbGciOiJIUzI1NiJ9".data "ew".data "x".data
    (utf8EncodeChars "\x7b\"alg\":\"HS256\"\x7d".data) rfl rfl).2
    (Json.obj [("alg", Json.str "HS256")]) (utf8EncodeChars "\x7b".data)
    "HS256" rfl rfl rfl rfl rfl rfl rfl

/-- A fixed signing primitive for the builder witness. -/
def sevenSign : String → Unit → List Nat → List Nat :=
  fun _ _ _ => [7]

/-- Builder options carrying one custom header that is not alg. -/
def optKid : JWTCreateOptions :=
  { headers := some [("kid", Json.str "k1")] }

/-- C3 witness: with a custom header list not containing alg, the builder
header keeps alg equal to the HS256 argument, the produced token is the
three encoded segments, and the header segment decodes back to the header
object. -/
theorem createJWTBuilder_header_alg_witness :
    getField (builderHeaderFields "HS256" optKid.headers) "alg" =
      some (Json.str "HS256") ∧
    createJWTBuilder sevenSign 0 "HS256" () [] (some optKid) =
      some (String.mk
        (b64urlEncode (utf8EncodeChars (stringifyVal
            (Json.obj (builderHeaderFields "HS256" optKid.headers)))) ++ '.' ::
          b64urlEncode (utf8EncodeChars (stringifyVal
            (Json.obj (builderPayloadFields 0 [] optKid)))) ++
            '.' :: b64urlEncode (sevenSign "HS256" () (utf8EncodeChars
              (b64urlEncode (utf8EncodeChars (stringifyVal
                  (Json.obj (builderHeaderFields "HS256" optKid.headers)))) ++
                '.' :: b64urlEncode (utf8EncodeChars (stringifyVal
                  (Json.obj (builderPayloadFields 0 [] optKid))))))))) ∧
    decodeSegment (b64urlEncode (utf8EncodeChars (stringifyVal
        (Json.obj (builderHeaderFields "HS256" optKid.headers))))) =
      some (Json.obj (builderHeaderFields "HS256" optKid.headers)) :=
  createJWTBuilder_header_alg sevenSign 0 "HS256" () [] optKid rfl
    (fun hs hhs kv hkv => by
      injection hhs with h2
      subst h2
      simp only [List.mem_singleton] at hkv
      subst hkv
      decide)
    (fun hs hhs kv hkv => by
      injection hhs with h2
      subst h2
      simp only [List.mem_singleton] at hkv
      subst hkv
      rfl)
